import Mathlib

/-!
Shallow embedding of the FourColorMap core (src/src/App.jsx) and proofs about it.

JavaScript numbers are modelled as exact real numbers; `Math.hypot` becomes
`Real.sqrt` of the sum of squares.  Geometric definitions therefore live in `ℝ`
and use classical decidability for the branch conditions, mirroring the
source's `if` statements.
-/

namespace FourColorMap

open Classical

/-- A 2-D point `{x, y}` as used throughout `App.jsx`. -/
structure Pt where
  x : ℝ
  y : ℝ

instance : Inhabited Pt := ⟨⟨0, 0⟩⟩

/-- `Math.hypot x y`. -/
noncomputable def hypot (x y : ℝ) : ℝ := Real.sqrt (x * x + y * y)

theorem hypot_eval {x y b : ℝ} (hb : 0 ≤ b) (h : x * x + y * y = b * b) :
    hypot x y = b := by
  rw [hypot, h, Real.sqrt_mul_self hb]

theorem hypot_nonneg (x y : ℝ) : 0 ≤ hypot x y := Real.sqrt_nonneg _

theorem lt_hypot {x y c : ℝ} (hc : 0 ≤ c) (h : c * c < x * x + y * y) :
    c < hypot x y := by
  rw [hypot]
  have := Real.lt_sqrt hc (y := x * x + y * y)
  rw [this]
  nlinarith

theorem le_hypot {x y c : ℝ} (hc : 0 ≤ c) (h : c * c ≤ x * x + y * y) :
    c ≤ hypot x y := by
  rw [hypot]
  have hxy : 0 ≤ x * x + y * y := by nlinarith
  rw [Real.le_sqrt hc hxy]
  nlinarith

/-- `pointLineDistance(point, lineStart, lineEnd)` from `App.jsx`:
distance from a point to a segment (the projection parameter is clamped). -/
noncomputable def pointLineDistance (p ls le : Pt) : ℝ :=
  let A := p.x - ls.x
  let B := p.y - ls.y
  let C := le.x - ls.x
  let D := le.y - ls.y
  let dot := A * C + B * D
  let lenSq := C * C + D * D
  let param := if lenSq ≠ 0 then dot / lenSq else -1
  let xx := if param < 0 then ls.x else if param > 1 then le.x else ls.x + param * C
  let yy := if param < 0 then ls.y else if param > 1 then le.y else ls.y + param * D
  hypot (p.x - xx) (p.y - yy)

/-- `segmentOverlapLength(a1, a2, b1, b2)` from `App.jsx`: near-parallel screen,
perpendicular-distance screen on `b1` against segment `(a1,a2)`, then 1-D
interval intersection of the projections onto the unit direction of `(a1,a2)`. -/
noncomputable def segmentOverlapLength (a1 a2 b1 b2 : Pt) : ℝ :=
  let v1x := a2.x - a1.x
  let v1y := a2.y - a1.y
  let v2x := b2.x - b1.x
  let v2y := b2.y - b1.y
  let len1 := hypot v1x v1y
  let len2 := hypot v2x v2y
  if len1 < 1 ∨ len2 < 1 then 0
  else
    let cross := |v1x * v2y - v1y * v2x| / (len1 * len2)
    if cross > 0.1 then 0
    else
      let d := pointLineDistance b1 a1 a2
      if d > 3 then 0
      else
        let ux := v1x / len1
        let uy := v1y / len1
        let projA1 := a1.x * ux + a1.y * uy
        let projA2 := a2.x * ux + a2.y * uy
        let projB1 := b1.x * ux + b1.y * uy
        let projB2 := b2.x * ux + b2.y * uy
        let minA := if projA1 < projA2 then projA1 else projA2
        let maxA := if projA1 < projA2 then projA2 else projA1
        let minB := if projB1 < projB2 then projB1 else projB2
        let maxB := if projB1 < projB2 then projB2 else projB1
        let overlap := min maxA maxB - max minA minB
        if overlap > 0 then overlap else 0

theorem sqrt_hundred : Real.sqrt (100 : ℝ) = 10 := by
  rw [show (100 : ℝ) = 10 * 10 by norm_num, Real.sqrt_mul_self (by norm_num)]

/-- C5: the three segment-overlap examples: collinear overlap 5, parallel at
perpendicular distance 1 (within tolerance 3) overlap 10, perpendicular 0. -/
theorem segmentOverlap_examples :
    segmentOverlapLength ⟨0, 0⟩ ⟨10, 0⟩ ⟨5, 0⟩ ⟨15, 0⟩ = 5 ∧
    segmentOverlapLength ⟨0, 0⟩ ⟨10, 0⟩ ⟨0, 1⟩ ⟨10, 1⟩ = 10 ∧
    segmentOverlapLength ⟨0, 0⟩ ⟨10, 0⟩ ⟨0, 0⟩ ⟨0, 10⟩ = 0 := by
  have e1 : hypot 10 0 = 10 := hypot_eval (by norm_num) (by norm_num)
  have e2 : hypot 0 0 = 0 := hypot_eval (by norm_num) (by norm_num)
  have e3 : hypot 0 1 = 1 := hypot_eval (by norm_num) (by norm_num)
  have e4 : hypot 0 10 = 10 := hypot_eval (by norm_num) (by norm_num)
  refine ⟨?_, ?_, ?_⟩
  · rw [segmentOverlapLength]
    norm_num [pointLineDistance, e1, e2]
  · rw [segmentOverlapLength]
    norm_num [pointLineDistance, e1, e3]
  · rw [segmentOverlapLength]
    norm_num [pointLineDistance, e1, e4]

theorem hypot_le {x y c : ℝ} (hc : 0 ≤ c) (h : x * x + y * y ≤ c * c) :
    hypot x y ≤ c := by
  rw [hypot]
  calc Real.sqrt (x * x + y * y) ≤ Real.sqrt (c * c) := Real.sqrt_le_sqrt h
    _ = c := Real.sqrt_mul_self hc

theorem hypot_smul (c x y : ℝ) : hypot (c * x) (c * y) = |c| * hypot x y := by
  rw [hypot, hypot, show c * x * (c * x) + c * y * (c * y) = c * c * (x * x + y * y) by ring,
    Real.sqrt_mul (mul_self_nonneg c), Real.sqrt_mul_self_eq_abs]

theorem ite_lt_min (x y : ℝ) : (if x < y then x else y) = min x y := by
  split
  · exact (min_eq_left (by linarith)).symm
  · exact (min_eq_right (by linarith)).symm

theorem ite_lt_max (x y : ℝ) : (if x < y then y else x) = max x y := by
  split
  · exact (max_eq_right (by linarith)).symm
  · exact (max_eq_left (by linarith)).symm

/-- C6 counterexample: `segmentOverlapLength` is not symmetric.  The distance
gate tests only `b1` against segment `(a1,a2)`; for `(0,0)-(10,0)` against
`(5,1)-(25,1)` it passes one way (distance 1) and fails the other way
(distance `√26 > 3`), so the two orders give 5 and 0. -/
theorem segmentOverlap_swap_ne :
    segmentOverlapLength ⟨0, 0⟩ ⟨10, 0⟩ ⟨5, 1⟩ ⟨25, 1⟩ = 5 ∧
    segmentOverlapLength ⟨5, 1⟩ ⟨25, 1⟩ ⟨0, 0⟩ ⟨10, 0⟩ = 0 ∧
    ¬ (segmentOverlapLength ⟨0, 0⟩ ⟨10, 0⟩ ⟨5, 1⟩ ⟨25, 1⟩ =
        segmentOverlapLength ⟨5, 1⟩ ⟨25, 1⟩ ⟨0, 0⟩ ⟨10, 0⟩) := by
  have e1 : hypot 10 0 = 10 := hypot_eval (by norm_num) (by norm_num)
  have e2 : hypot 20 0 = 20 := hypot_eval (by norm_num) (by norm_num)
  have e3 : hypot 0 1 = 1 := hypot_eval (by norm_num) (by norm_num)
  have e4 : (3 : ℝ) < hypot (-5) (-1) := lt_hypot (by norm_num) (by norm_num)
  have hfst : segmentOverlapLength ⟨0, 0⟩ ⟨10, 0⟩ ⟨5, 1⟩ ⟨25, 1⟩ = 5 := by
    rw [segmentOverlapLength]
    norm_num [pointLineDistance, e1, e2, e3]
  have hsnd : segmentOverlapLength ⟨5, 1⟩ ⟨25, 1⟩ ⟨0, 0⟩ ⟨10, 0⟩ = 0 := by
    rw [segmentOverlapLength]
    norm_num [pointLineDistance, e1, e2, e4]
  refine ⟨hfst, hsnd, ?_⟩
  rw [hfst, hsnd]
  norm_num

/-- C6 amended: for exactly parallel segments (`(b2-b1) = c • (a2-a1)`,
`c ≠ 0`) whose perpendicular-distance gates pass in both orders, swapping the
two segments yields the same overlap value.  (Unconditional symmetry fails,
see the counterexample.) -/
theorem segmentOverlap_symm_parallel (a1 a2 b1 b2 : Pt) (c : ℝ) (hc : c ≠ 0)
    (hx : b2.x - b1.x = c * (a2.x - a1.x)) (hy : b2.y - b1.y = c * (a2.y - a1.y))
    (hd1 : ¬ pointLineDistance b1 a1 a2 > 3) (hd2 : ¬ pointLineDistance a1 b1 b2 > 3) :
    segmentOverlapLength a1 a2 b1 b2 = segmentOverlapLength b1 b2 a1 a2 := by
  obtain ⟨ax1, ay1⟩ := a1
  obtain ⟨ax2, ay2⟩ := a2
  obtain ⟨bx1, by1⟩ := b1
  obtain ⟨bx2, by2⟩ := b2
  dsimp only at hx hy
  have hbx : bx2 = bx1 + c * (ax2 - ax1) := by linarith
  have hby : by2 = by1 + c * (ay2 - ay1) := by linarith
  subst hbx hby
  have hsub1 : bx1 + c * (ax2 - ax1) - bx1 = c * (ax2 - ax1) := by ring
  have hsub2 : by1 + c * (ay2 - ay1) - by1 = c * (ay2 - ay1) := by ring
  simp only [segmentOverlapLength, hsub1, hsub2, hypot_smul]
  set L := hypot (ax2 - ax1) (ay2 - ay1) with hL
  have hLnn : 0 ≤ L := hypot_nonneg _ _
  have habs : 0 < |c| := abs_pos.mpr hc
  by_cases hlen : L < 1 ∨ |c| * L < 1
  · rw [if_pos hlen, if_pos (Or.symm hlen)]
  · rw [if_neg hlen, if_neg (fun h => hlen (Or.symm h))]
    have hL1 : ¬ L < 1 := fun h => hlen (Or.inl h)
    have hLpos : 0 < L := by
      push_neg at hL1
      linarith
    have hcross1 : |(ax2 - ax1) * (c * (ay2 - ay1)) - (ay2 - ay1) * (c * (ax2 - ax1))| = 0 := by
      rw [show (ax2 - ax1) * (c * (ay2 - ay1)) - (ay2 - ay1) * (c * (ax2 - ax1)) = 0 by ring]
      exact abs_zero
    have hcross2 : |c * (ax2 - ax1) * (ay2 - ay1) - c * (ay2 - ay1) * (ax2 - ax1)| = 0 := by
      rw [show c * (ax2 - ax1) * (ay2 - ay1) - c * (ay2 - ay1) * (ax2 - ax1) = 0 by ring]
      exact abs_zero
    rw [hcross1, hcross2, zero_div, zero_div]
    rw [if_neg (show ¬((0 : ℝ) > 0.1) by norm_num), if_neg hd1,
      if_neg (show ¬((0 : ℝ) > 0.1) by norm_num), if_neg hd2]
    have hux : c * (ax2 - ax1) / (|c| * L) = c / |c| * ((ax2 - ax1) / L) := by
      field_simp
    have huy : c * (ay2 - ay1) / (|c| * L) = c / |c| * ((ay2 - ay1) / L) := by
      field_simp
    rw [hux, huy]
    rcases lt_or_gt_of_ne hc with hneg | hpos
    · have hq : c / |c| = -1 := by
        rw [abs_of_neg hneg]
        field_simp
      rw [hq]
      rw [show bx1 * (-1 * ((ax2 - ax1) / L)) + by1 * (-1 * ((ay2 - ay1) / L)) =
        -(bx1 * ((ax2 - ax1) / L) + by1 * ((ay2 - ay1) / L)) by ring]
      rw [show (bx1 + c * (ax2 - ax1)) * (-1 * ((ax2 - ax1) / L)) +
          (by1 + c * (ay2 - ay1)) * (-1 * ((ay2 - ay1) / L)) =
        -((bx1 + c * (ax2 - ax1)) * ((ax2 - ax1) / L) +
          (by1 + c * (ay2 - ay1)) * ((ay2 - ay1) / L)) by ring]
      rw [show ax1 * (-1 * ((ax2 - ax1) / L)) + ay1 * (-1 * ((ay2 - ay1) / L)) =
        -(ax1 * ((ax2 - ax1) / L) + ay1 * ((ay2 - ay1) / L)) by ring]
      rw [show ax2 * (-1 * ((ax2 - ax1) / L)) + ay2 * (-1 * ((ay2 - ay1) / L)) =
        -(ax2 * ((ax2 - ax1) / L) + ay2 * ((ay2 - ay1) / L)) by ring]
      set pA1 := ax1 * ((ax2 - ax1) / L) + ay1 * ((ay2 - ay1) / L) with hpA1
      set pA2 := ax2 * ((ax2 - ax1) / L) + ay2 * ((ay2 - ay1) / L) with hpA2
      set pB1 := bx1 * ((ax2 - ax1) / L) + by1 * ((ay2 - ay1) / L) with hpB1
      set pB2 := (bx1 + c * (ax2 - ax1)) * ((ax2 - ax1) / L) +
        (by1 + c * (ay2 - ay1)) * ((ay2 - ay1) / L) with hpB2
      simp only [ite_lt_min, ite_lt_max]
      have hkey : min (max (-pB1) (-pB2)) (max (-pA1) (-pA2)) -
          max (min (-pB1) (-pB2)) (min (-pA1) (-pA2)) =
          min (max pA1 pA2) (max pB1 pB2) - max (min pA1 pA2) (min pB1 pB2) := by
        simp only [max_neg_neg, min_neg_neg]
        rw [min_comm (max pB1 pB2) (max pA1 pA2), max_comm (min pB1 pB2) (min pA1 pA2)]
        ring
      rw [hkey]
    · have hq : c / |c| = 1 := by
        rw [abs_of_pos hpos]
        field_simp
      rw [hq]
      simp only [one_mul]
      set pA1 := ax1 * ((ax2 - ax1) / L) + ay1 * ((ay2 - ay1) / L) with hpA1
      set pA2 := ax2 * ((ax2 - ax1) / L) + ay2 * ((ay2 - ay1) / L) with hpA2
      set pB1 := bx1 * ((ax2 - ax1) / L) + by1 * ((ay2 - ay1) / L) with hpB1
      set pB2 := (bx1 + c * (ax2 - ax1)) * ((ax2 - ax1) / L) +
        (by1 + c * (ay2 - ay1)) * ((ay2 - ay1) / L) with hpB2
      simp only [ite_lt_min, ite_lt_max]
      rw [min_comm (max pB1 pB2) (max pA1 pA2), max_comm (min pB1 pB2) (min pA1 pA2)]

/-- C6 amended claim, witness: exactly parallel segments `(0,0)-(10,0)` and
`(2,1)-(12,1)` pass both perpendicular gates, and swapping them yields the
same overlap. -/
theorem segmentOverlap_symm_parallel_witness :
    segmentOverlapLength ⟨0, 0⟩ ⟨10, 0⟩ ⟨2, 1⟩ ⟨12, 1⟩ =
      segmentOverlapLength ⟨2, 1⟩ ⟨12, 1⟩ ⟨0, 0⟩ ⟨10, 0⟩ := by
  have e1 : hypot 0 1 = 1 := hypot_eval (by norm_num) (by norm_num)
  refine segmentOverlap_symm_parallel ⟨0, 0⟩ ⟨10, 0⟩ ⟨2, 1⟩ ⟨12, 1⟩ 1 (by norm_num)
    (by norm_num) (by norm_num) ?_ ?_
  · rw [pointLineDistance]
    norm_num [e1]
  · rw [pointLineDistance]
    norm_num
    exact hypot_le (by norm_num) (by norm_num)

/-! ### Exact coloring solver (spec §4.5, §6)

The repository's source contains no exact solver; only the spec describes
`solveExactColoring` (DSATUR-style backtracking).  The definitions below are
therefore modelled from the spec's words, with `RegionId = ℕ` and an adjacency
function giving each region's neighbor list. -/

/-- Modelled from the spec: colors already assigned to the neighbors of `r`
(the exact solver excludes any color currently used by a colored neighbor). -/
def neighborColors (adj : ℕ → List ℕ) (assignment : List (ℕ × ℕ)) (r : ℕ) : List ℕ :=
  (adj r).filterMap (fun n => assignment.lookup n)

/-- Modelled from the spec: saturation degree of `r` — the count of distinct
colors already used among its neighbors. -/
def saturation (adj : ℕ → List ℕ) (assignment : List (ℕ × ℕ)) (r : ℕ) : ℕ :=
  (neighborColors adj assignment r).dedup.length

/-- Modelled from the spec: DSATUR selection preference — highest saturation
degree, tie-broken by highest total degree, tie-broken by lowest RegionId. -/
def dsaturBetter (adj : ℕ → List ℕ) (assignment : List (ℕ × ℕ)) (a b : ℕ) : Bool :=
  let sa := saturation adj assignment a
  let sb := saturation adj assignment b
  decide (sb < sa) ||
    (sa == sb && (decide ((adj b).length < (adj a).length) ||
      ((adj a).length == (adj b).length && decide (a < b))))

/-- Modelled from the spec: the uncolored region the DSATUR rule selects. -/
def selectRegion (regions : List ℕ) (adj : ℕ → List ℕ)
    (assignment : List (ℕ × ℕ)) : Option ℕ :=
  (regions.filter (fun r => (assignment.lookup r).isNone)).foldl
    (fun acc r =>
      match acc with
      | none => some r
      | some b => if dsaturBetter adj assignment r b then some r else some b)
    none

/-- Modelled from the spec: backtracking core.  At each level the selected
region tries the palette colors in ascending order, excluding colors of
already-colored neighbors, recursing and undoing on failure.  `fuel` bounds
the recursion depth; one region is colored per level, so
`regions.length + 1` levels always suffice. -/
def solveAux (regions : List ℕ) (adj : ℕ → List ℕ) (palette : ℕ) :
    ℕ → List (ℕ × ℕ) → Option (List (ℕ × ℕ))
  | 0, _ => none
  | fuel + 1, assignment =>
    match selectRegion regions adj assignment with
    | none => some assignment
    | some r =>
      let forbidden := neighborColors adj assignment r
      ((List.range palette).filter (fun c => !forbidden.contains c)).foldl
        (fun acc c =>
          match acc with
          | some m => some m
          | none => solveAux regions adj palette fuel ((r, c) :: assignment))
        none

/-- Modelled from the spec:
`solveExactColoring(regions, graph, paletteSize)` — a complete conflict-free
assignment (`some`), or `none` for `ColoringInfeasible`. -/
def solveExactColoring (regions : List ℕ) (adj : ℕ → List ℕ) (palette : ℕ) :
    Option (List (ℕ × ℕ)) :=
  solveAux regions adj palette (regions.length + 1) []

/-- A complete, conflict-free coloring: every region gets a color below the
palette size that differs from every colored neighbor's color. -/
def validColoring (regions : List ℕ) (adj : ℕ → List ℕ) (palette : ℕ)
    (m : List (ℕ × ℕ)) : Bool :=
  regions.all fun r =>
    match m.lookup r with
    | none => false
    | some c =>
      decide (c < palette) &&
        (adj r).all fun n =>
          match m.lookup n with
          | none => true
          | some c2 => !(c == c2)

/-- The 5-cycle adjacency graph: regions `0..4`, each adjacent to its two
cyclic neighbors. -/
def fiveCycleRegions : List ℕ := [0, 1, 2, 3, 4]

/-- Neighbor lists of the 5-cycle. -/
def fiveCycleAdj (r : ℕ) : List ℕ :=
  if r < 5 then [(r + 1) % 5, (r + 4) % 5] else []

/-- C1: on the 5-cycle the exact solver reports infeasibility with a 2-color
palette and returns a complete conflict-free assignment with a 3-color
palette. -/
theorem solveExactColoring_fiveCycle :
    solveExactColoring fiveCycleRegions fiveCycleAdj 2 = none ∧
    (match solveExactColoring fiveCycleRegions fiveCycleAdj 3 with
      | some m => validColoring fiveCycleRegions fiveCycleAdj 3 m
      | none => false) = true := by
  decide

/-! ### Regions, adjacency maps, and `computeAdjacency`

JS `Map`/`Set` values are modelled as association lists in insertion order
with unique keys (a JS `Map` has unique keys by construction), generic over
the id type: the source uses strings (`region-${index}`, `custom-...`). -/

/-- A region: stable id plus polygon (its `color` field plays no role in any
of the claims and is omitted). -/
structure Region (ι : Type) where
  id : ι
  polygon : List Pt

instance {ι : Type} [Inhabited ι] : Inhabited (Region ι) := ⟨⟨default, []⟩⟩

/-- `Map<ι, Set<ι>>` in insertion order, unique keys. -/
def AdjMap (ι : Type) := List (ι × List ι)

/-- `map.get(k)`. -/
def mapGet {ι : Type} [DecidableEq ι] : AdjMap ι → ι → Option (List ι)
  | [], _ => none
  | (k, s) :: t, x => if k = x then some s else mapGet t x

/-- `map.set(k, v)`: replace the binding if the key exists, else append. -/
def mapSet {ι : Type} [DecidableEq ι] : AdjMap ι → ι → List ι → AdjMap ι
  | [], k, v => [(k, v)]
  | (k', v') :: t, k, v => if k' = k then (k, v) :: t else (k', v') :: mapSet t k v

/-- JS `Set.add`: append if absent (sets iterate in insertion order). -/
def setAdd {ι : Type} [DecidableEq ι] (s : List ι) (x : ι) : List ι :=
  if x ∈ s then s else s ++ [x]

/-- `adjacency.get(a)?.add(b)`: update `a`'s neighbor set when the key
exists; the optional chaining makes a missing key a no-op. -/
def addNeighbor {ι : Type} [DecidableEq ι] : AdjMap ι → ι → ι → AdjMap ι
  | [], _, _ => []
  | (k, s) :: t, a, b => if k = a then (k, setAdd s b) :: t else (k, s) :: addNeighbor t a b

/-- `b ∈ adjacency.get(a)`. -/
def memAdj {ι : Type} [DecidableEq ι] (m : AdjMap ι) (a b : ι) : Prop :=
  ∃ s, mapGet m a = some s ∧ b ∈ s

/-- The key `a` is present in the map. -/
def hasKey {ι : Type} [DecidableEq ι] (m : AdjMap ι) (a : ι) : Prop :=
  (mapGet m a).isSome

/-- Cyclic edge `(poly[i], poly[(i+1) % poly.length])`. -/
def polyEdge (poly : List Pt) (i : ℕ) : Pt × Pt :=
  (poly.getD i default, poly.getD ((i + 1) % poly.length) default)

/-- Loop body of `sharedEdgeLength`: accumulate the overlaps of the listed
edge pairs, returning early once the total exceeds 8. -/
noncomputable def sharedEdgeLengthAux (polyA polyB : List Pt) :
    List (ℕ × ℕ) → ℝ → ℝ
  | [], total => total
  | (i, j) :: rest, total =>
    let a := polyEdge polyA i
    let b := polyEdge polyB j
    let total2 := total + segmentOverlapLength a.1 a.2 b.1 b.2
    if total2 > 8 then total2 else sharedEdgeLengthAux polyA polyB rest total2

/-- `sharedEdgeLength(polyA, polyB)` from `App.jsx`: total overlap length of
all edge pairs in loop order, with the early return at 8. -/
noncomputable def sharedEdgeLength (polyA polyB : List Pt) : ℝ :=
  sharedEdgeLengthAux polyA polyB
    ((List.range polyA.length).flatMap fun i => (List.range polyB.length).map fun j => (i, j)) 0

/-- `adjacency` initialization in `computeAdjacency`: one empty neighbor set
per region id. -/
def initAdj {ι : Type} [DecidableEq ι] (regions : List (Region ι)) : AdjMap ι :=
  regions.foldl (fun m r => mapSet m r.id []) []

/-- Body of the `i < j` double loop of `computeAdjacency`. -/
noncomputable def adjStep {ι : Type} [DecidableEq ι] [Inhabited ι]
    (regions : List (Region ι)) (m : AdjMap ι) (i j : ℕ) : AdjMap ι :=
  let rA := regions.getD i default
  let rB := regions.getD j default
  if sharedEdgeLength rA.polygon rB.polygon > 8 then
    addNeighbor (addNeighbor m rA.id rB.id) rB.id rA.id
  else m

/-- `computeAdjacency(regions)` from `App.jsx`: all-pairs geometric edge
matching; a pair becomes adjacent exactly when its accumulated shared edge
length exceeds 8. -/
noncomputable def computeAdjacency {ι : Type} [DecidableEq ι] [Inhabited ι]
    (regions : List (Region ι)) : AdjMap ι :=
  (List.range regions.length).foldl
    (fun m i =>
      (List.range' (i + 1) (regions.length - (i + 1))).foldl
        (fun m2 j => adjStep regions m2 i j) m)
    (initAdj regions)

section AdjLemmas

variable {ι : Type} [DecidableEq ι]

theorem mem_setAdd {s : List ι} {b y : ι} : y ∈ setAdd s b ↔ y ∈ s ∨ y = b := by
  unfold setAdd
  split
  · rename_i hb
    constructor
    · exact Or.inl
    · rintro (h | rfl)
      · exact h
      · exact hb
  · simp [List.mem_append]

theorem mapGet_addNeighbor (m : AdjMap ι) (a b x : ι) :
    mapGet (addNeighbor m a b) x =
      if x = a then (mapGet m a).map (fun s => setAdd s b) else mapGet m x := by
  induction m with
  | nil => simp [addNeighbor, mapGet]
  | cons p t ih =>
    obtain ⟨k, s⟩ := p
    by_cases hka : k = a
    · subst hka
      by_cases hkx : k = x
      · subst hkx
        simp [addNeighbor, mapGet]
      · simp [addNeighbor, mapGet, hkx, Ne.symm hkx]
    · by_cases hkx : k = x
      · subst hkx
        simp [addNeighbor, mapGet, hka]
      · simp [addNeighbor, mapGet, hka, hkx, ih]

theorem hasKey_addNeighbor (m : AdjMap ι) (a b x : ι) :
    hasKey (addNeighbor m a b) x ↔ hasKey m x := by
  unfold hasKey
  rw [mapGet_addNeighbor]
  split
  · rename_i hxa
    subst hxa
    simp
  · rfl

theorem memAdj_addNeighbor (m : AdjMap ι) (a b x y : ι) :
    memAdj (addNeighbor m a b) x y ↔
      memAdj m x y ∨ (x = a ∧ y = b ∧ hasKey m a) := by
  unfold memAdj
  rw [mapGet_addNeighbor]
  by_cases hxa : x = a
  · subst hxa
    simp only [if_pos rfl]
    constructor
    · rintro ⟨s', hs', hy⟩
      obtain ⟨s, hs, rfl⟩ := Option.map_eq_some'.mp hs'
      rcases mem_setAdd.mp hy with h | h
      · exact Or.inl ⟨s, hs, h⟩
      · exact Or.inr ⟨by trivial, h, by simp [hasKey, hs]⟩
    · rintro (⟨s, hs, hy⟩ | ⟨-, hy, hk⟩)
      · exact ⟨setAdd s b, by simp [hs], mem_setAdd.mpr (Or.inl hy)⟩
      · obtain ⟨s, hs⟩ := Option.isSome_iff_exists.mp hk
        exact ⟨setAdd s b, by simp [hs], mem_setAdd.mpr (Or.inr hy)⟩
  · simp [hxa]

theorem memAdj_addPair (m : AdjMap ι) (a b x y : ι)
    (ha : hasKey m a) (hb : hasKey m b) :
    memAdj (addNeighbor (addNeighbor m a b) b a) x y ↔
      memAdj m x y ∨ (x = a ∧ y = b) ∨ (x = b ∧ y = a) := by
  rw [memAdj_addNeighbor, memAdj_addNeighbor]
  rw [hasKey_addNeighbor]
  constructor
  · rintro ((h | ⟨h1, h2, -⟩) | ⟨h1, h2, -⟩)
    · exact Or.inl h
    · exact Or.inr (Or.inl ⟨h1, h2⟩)
    · exact Or.inr (Or.inr ⟨h1, h2⟩)
  · rintro (h | ⟨h1, h2⟩ | ⟨h1, h2⟩)
    · exact Or.inl (Or.inl h)
    · exact Or.inl (Or.inr ⟨h1, h2, ha⟩)
    · exact Or.inr ⟨h1, h2, hb⟩

theorem foldl_invariant {α β : Type} (P : β → Prop) (f : β → α → β) :
    ∀ (l : List α) (b : β), P b → (∀ x b2, x ∈ l → P b2 → P (f b2 x)) → P (l.foldl f b)
  | [], b, hb, _ => hb
  | x :: t, b, hb, hstep =>
    foldl_invariant P f t (f b x) (hstep x b (List.mem_cons_self x t) hb)
      (fun z b2 hz => hstep z b2 (List.mem_cons_of_mem x hz))

theorem mapGet_mapSet (m : AdjMap ι) (k : ι) (v : List ι) (x : ι) :
    mapGet (mapSet m k v) x = if x = k then some v else mapGet m x := by
  induction m with
  | nil =>
    by_cases h : x = k
    · simp [mapSet, mapGet, h]
    · have h2 : ¬ k = x := fun hh => h hh.symm
      simp [mapSet, mapGet, h, h2]
  | cons p t ih =>
    obtain ⟨k', v'⟩ := p
    by_cases h1 : k' = k <;> by_cases h2 : x = k' <;>
      simp_all [mapSet, mapGet, eq_comm]

/-- Values of the `initAdj` fold stay empty and its keys are the ids seen. -/
theorem initAdj_go :
    ∀ (rs : List (Region ι)) (m0 : AdjMap ι),
      (∀ x s, mapGet m0 x = some s → s = []) →
      (∀ x s, mapGet (rs.foldl (fun m r => mapSet m r.id []) m0) x = some s → s = []) ∧
      (∀ x, hasKey (rs.foldl (fun m r => mapSet m r.id []) m0) x ↔
        hasKey m0 x ∨ x ∈ rs.map Region.id) := by
  intro rs
  induction rs with
  | nil =>
    intro m0 h0
    exact ⟨h0, fun x => by simp⟩
  | cons r t ih =>
    intro m0 h0
    have h0' : ∀ x s, mapGet (mapSet m0 r.id []) x = some s → s = [] := by
      intro x s hx
      rw [mapGet_mapSet] at hx
      split at hx
      · exact (Option.some_inj.mp hx).symm
      · exact h0 _ _ hx
    obtain ⟨ha, hb⟩ := ih (mapSet m0 r.id []) h0'
    refine ⟨ha, fun x => ?_⟩
    rw [List.foldl_cons, hb x]
    unfold hasKey
    rw [mapGet_mapSet]
    by_cases hx : x = r.id
    · simp [hx]
    · simp [hx]

/-- The adjacency relation is symmetric. -/
def symmAdj (m : AdjMap ι) : Prop := ∀ a b, memAdj m a b → memAdj m b a

/-- The adjacency relation has no self-loops. -/
def irreflAdj (m : AdjMap ι) : Prop := ∀ a, ¬ memAdj m a a

end AdjLemmas

section ComputeAdjacency

variable {ι : Type} [DecidableEq ι] [Inhabited ι]

/-- `computeAdjacency` builds a symmetric, irreflexive graph whenever the
region ids are distinct (symmetry in fact needs no hypothesis; distinctness
rules out a self-loop between two identically-named regions). -/
theorem computeAdjacency_invariant (regions : List (Region ι))
    (hids : (regions.map Region.id).Nodup) :
    symmAdj (computeAdjacency regions) ∧ irreflAdj (computeAdjacency regions) := by
  have key : symmAdj (computeAdjacency regions) ∧ irreflAdj (computeAdjacency regions) ∧
      ∀ r ∈ regions, hasKey (computeAdjacency regions) r.id := by
    unfold computeAdjacency
    apply foldl_invariant
      (fun m => symmAdj m ∧ irreflAdj m ∧ ∀ r ∈ regions, hasKey m r.id)
    · obtain ⟨hval, hkey⟩ := initAdj_go regions [] (by intro x s h; simp [mapGet] at h)
      refine ⟨?_, ?_, ?_⟩
      · intro a b hab
        obtain ⟨s, hs, hbs⟩ := hab
        rw [hval a s hs] at hbs
        exact absurd hbs (List.not_mem_nil b)
      · intro a ⟨s, hs, has⟩
        rw [hval a s hs] at has
        exact absurd has (List.not_mem_nil a)
      · intro r hr
        rw [initAdj, hkey r.id]
        exact Or.inr (List.mem_map_of_mem Region.id hr)
    · intro i m hi hm
      apply foldl_invariant
        (fun m => symmAdj m ∧ irreflAdj m ∧ ∀ r ∈ regions, hasKey m r.id)
      · exact hm
      · intro j m2 hj hm2
        have hilen : i < regions.length := List.mem_range.mp hi
        have hj' := List.mem_range'_1.mp hj
        have hij : i < j := lt_of_lt_of_le (Nat.lt_succ_self i) hj'.1
        have hjlen : j < regions.length := by
          have := hj'.2
          omega
        obtain ⟨hsym, hirr, hkeys⟩ := hm2
        simp only [adjStep]
        split
        · have hAget : regions.getD i default = regions[i] := by
            rw [List.getD_eq_getElem?_getD, List.getElem?_eq_getElem hilen]
            rfl
          have hBget : regions.getD j default = regions[j] := by
            rw [List.getD_eq_getElem?_getD, List.getElem?_eq_getElem hjlen]
            rfl
          have hAmem : regions.getD i default ∈ regions := by
            rw [hAget]; exact List.getElem_mem hilen
          have hBmem : regions.getD j default ∈ regions := by
            rw [hBget]; exact List.getElem_mem hjlen
          have hkA : hasKey m2 (regions.getD i default).id := hkeys _ hAmem
          have hkB : hasKey m2 (regions.getD j default).id := hkeys _ hBmem
          have hne : (regions.getD i default).id ≠ (regions.getD j default).id := by
            rw [hAget, hBget]
            intro hcon
            have hi2 : i < (regions.map Region.id).length := by simpa using hilen
            have hj2 : j < (regions.map Region.id).length := by simpa using hjlen
            have h1 : (regions.map Region.id)[i] = (regions.map Region.id)[j] := by
              rw [List.getElem_map, List.getElem_map]
              exact hcon
            have := (List.Nodup.getElem_inj_iff hids).mp h1
            omega
          refine ⟨?_, ?_, ?_⟩
          · intro a b hab
            rw [memAdj_addPair _ _ _ _ _ hkA hkB] at hab ⊢
            rcases hab with h | ⟨h1, h2⟩ | ⟨h1, h2⟩
            · exact Or.inl (hsym a b h)
            · exact Or.inr (Or.inr ⟨h2, h1⟩)
            · exact Or.inr (Or.inl ⟨h2, h1⟩)
          · intro a ha
            rw [memAdj_addPair _ _ _ _ _ hkA hkB] at ha
            rcases ha with h | ⟨h1, h2⟩ | ⟨h1, h2⟩
            · exact hirr a h
            · exact hne (h1 ▸ h2 ▸ rfl)
            · exact hne (h2 ▸ h1 ▸ rfl)
          · intro r hr
            rw [hasKey_addNeighbor, hasKey_addNeighbor]
            exact hkeys r hr
        · exact ⟨hsym, hirr, hkeys⟩
  exact ⟨key.1, key.2.1⟩

end ComputeAdjacency

/-! ### Random source, point sampler, map generator

The source draws from the implicit global `Math.random` (no seed parameter
exists anywhere); the embedding makes that global generator explicit as a
stream of successive outputs read at an advancing cursor. -/

/-- Successive outputs of the global `Math.random`. -/
def RandStream := ℕ → ℝ

/-- `randomRange(min, max)` applied to one stream value `r`. -/
noncomputable def randomRange (lo hi r : ℝ) : ℝ := lo + r * (hi - lo)

/-- Sampler points are `[x, y]` arrays. -/
abbrev P2 := ℝ × ℝ

/-- `distance(a, b)` on `[x, y]` pairs. -/
noncomputable def distance (a b : P2) : ℝ := hypot (a.1 - b.1) (a.2 - b.2)

/-- The sampler's minimum separation `width / Math.sqrt(count) / 2.2`. -/
noncomputable def minDistOf (count : ℕ) (width : ℝ) : ℝ :=
  width / Real.sqrt count / 2.2

/-- Rejection-sampling phase of `createPoints`: up to `fuel` attempts (two
stream reads each, drawn from the 5% inset rectangle), accepting a candidate
only when it clears the minimum distance to every accepted point.  Returns
the accepted points and the final stream cursor. -/
noncomputable def createPointsLoop (count : ℕ) (width height : ℝ) (s : RandStream) :
    ℕ → ℕ → List P2 → List P2 × ℕ
  | 0, cur, pts => (pts, cur)
  | fuel + 1, cur, pts =>
    if pts.length < count then
      let p : P2 := (randomRange (width * 0.05) (width * 0.95) (s cur),
                     randomRange (height * 0.05) (height * 0.95) (s (cur + 1)))
      if pts.all (fun q => decide (distance q p > minDistOf count width)) then
        createPointsLoop count width height s fuel (cur + 2) (pts ++ [p])
      else
        createPointsLoop count width height s fuel (cur + 2) pts
    else (pts, cur)

/-- Fill phase of `createPoints`: `k` plain uniform draws over the full
rectangle. -/
noncomputable def fillPoints (width height : ℝ) (s : RandStream) : ℕ → ℕ → List P2
  | _, 0 => []
  | cur, k + 1 =>
    (randomRange 0 width (s cur), randomRange 0 height (s (cur + 1))) ::
      fillPoints width height s (cur + 2) k

/-- `createPoints(count, width, height)` from `App.jsx`, with the global
random stream explicit: a `120 × count` attempt budget for the rejection
phase, then uniform fill draws until exactly `count` points exist. -/
noncomputable def createPoints (count : ℕ) (width height : ℝ) (s : RandStream) :
    List P2 :=
  let r := createPointsLoop count width height s (count * 120) 0 []
  r.1 ++ fillPoints width height s r.2 (count - r.1.length)

theorem createPointsLoop_spec (count : ℕ) (w h : ℝ) (s : RandStream) :
    ∀ (fuel cur : ℕ) (pts : List P2),
      pts.length ≤ count →
      List.Pairwise (fun q p => distance q p > minDistOf count w) pts →
      (createPointsLoop count w h s fuel cur pts).1.length ≤ count ∧
      List.Pairwise (fun q p => distance q p > minDistOf count w)
        (createPointsLoop count w h s fuel cur pts).1 := by
  intro fuel
  induction fuel with
  | zero =>
    intro cur pts h1 h2
    exact ⟨h1, h2⟩
  | succ f ih =>
    intro cur pts h1 h2
    rw [createPointsLoop]
    by_cases hlt : pts.length < count
    · rw [if_pos hlt]
      dsimp only
      split
      · rename_i hall
        apply ih
        · simpa using hlt
        · rw [List.pairwise_append]
          refine ⟨h2, List.pairwise_singleton _ _, ?_⟩
          intro q hq p2 hp2
          rw [List.mem_singleton] at hp2
          subst hp2
          have := List.all_eq_true.mp hall q hq
          exact of_decide_eq_true this
      · exact ih _ _ h1 h2
    · rw [if_neg hlt]
      exact ⟨h1, h2⟩

theorem fillPoints_length (w h : ℝ) (s : RandStream) :
    ∀ (k cur : ℕ), (fillPoints w h s cur k).length = k := by
  intro k
  induction k with
  | zero => intro cur; rfl
  | succ n ih =>
    intro cur
    rw [fillPoints]
    simp [ih]

theorem fillPoints_mem (w h : ℝ) (s : RandStream) (hw : 0 ≤ w) (hh : 0 ≤ h)
    (hs : ∀ n, 0 ≤ s n ∧ s n < 1) :
    ∀ (k cur : ℕ) (p : P2), p ∈ fillPoints w h s cur k →
      0 ≤ p.1 ∧ p.1 ≤ w ∧ 0 ≤ p.2 ∧ p.2 ≤ h := by
  intro k
  induction k with
  | zero =>
    intro cur p hp
    exact absurd hp (List.not_mem_nil p)
  | succ n ih =>
    intro cur p hp
    rw [fillPoints] at hp
    rcases List.mem_cons.mp hp with h | h
    · subst h
      dsimp only
      unfold randomRange
      obtain ⟨hs0, hs1⟩ := hs cur
      obtain ⟨hs0', hs1'⟩ := hs (cur + 1)
      refine ⟨by nlinarith, by nlinarith, by nlinarith, by nlinarith⟩
    · exact ih _ _ h

/-- C7: the sampler always returns exactly `count` points; the points of the
rejection phase pairwise clear the minimum separation
`width / √count / 2.2`; any remaining points are uniform draws over the full
rectangle (hence only known to lie inside it). -/
theorem createPoints_spec (count : ℕ) (w h : ℝ) (s : RandStream)
    (hw : 0 < w) (hh : 0 < h) (hs : ∀ n, 0 ≤ s n ∧ s n < 1) :
    (createPoints count w h s).length = count ∧
    ∃ ps qs, createPoints count w h s = ps ++ qs ∧
      List.Pairwise (fun q p => distance q p > minDistOf count w) ps ∧
      ∀ p ∈ qs, 0 ≤ p.1 ∧ p.1 ≤ w ∧ 0 ≤ p.2 ∧ p.2 ≤ h := by
  obtain ⟨hlen, hpair⟩ := createPointsLoop_spec count w h s (count * 120) 0 []
    (by simp) (List.Pairwise.nil)
  constructor
  · rw [createPoints]
    rw [List.length_append, fillPoints_length]
    omega
  · refine ⟨(createPointsLoop count w h s (count * 120) 0 []).1,
      fillPoints w h s (createPointsLoop count w h s (count * 120) 0 []).2
        (count - (createPointsLoop count w h s (count * 120) 0 []).1.length),
      rfl, hpair, ?_⟩
    intro p hp
    exact fillPoints_mem w h s (le_of_lt hw) (le_of_lt hh) hs _ _ p hp

/-- C7 witness: one point, a 900 × 620 rectangle, and the all-zero stream. -/
theorem createPoints_spec_witness :
    (0 : ℝ) < 900 ∧ (0 : ℝ) < 620 ∧
    (createPoints 1 900 620 (fun _ => 0)).length = 1 := by
  refine ⟨by norm_num, by norm_num, ?_⟩
  exact (createPoints_spec 1 900 620 (fun _ => 0) (by norm_num) (by norm_num)
    (fun n => ⟨le_refl 0, by norm_num⟩)).1

/-- External collaborator `d3-delaunay`: the Voronoi cell polygon of each
site (clipped to the bounding rectangle; `none` when no cell results) and the
triangulation's neighbor list of each site. -/
structure DelaunayOracle where
  cellPolygon : ℕ → Option (List P2)
  neighborList : ℕ → List ℕ

/-- `normalizePolygon(polygon)` from `App.jsx`: drop the duplicate closing
vertex when the first and last vertices coincide. -/
noncomputable def normalizePolygon (polygon : List P2) : List P2 :=
  if 1 < polygon.length ∧ polygon.headD default = polygon.getLastD default then
    polygon.dropLast
  else polygon

/-- `clamp(value, min, max)` (`Math.min(Math.max(value, min), max)`). -/
noncomputable def clamp (value lo hi : ℝ) : ℝ := min (max value lo) hi

theorem clamp_of_mem {value lo hi : ℝ} (h1 : lo ≤ value) (h2 : value ≤ hi) :
    clamp value lo hi = value := by
  unfold clamp
  rw [max_eq_left h1, min_eq_left h2]

/-- The per-site region array of `generateRandomMap` (`null` for sites whose
cell is degenerate).  JS tags regions `region-${index}`, an injective
function of the site index; the index itself is used as the id. -/
noncomputable def genRegionsOpt (d : DelaunayOracle) (width height : ℝ)
    (points : List P2) : List (Option (Region ℕ)) :=
  (List.range points.length).map fun index =>
    (d.cellPolygon index).map fun polygon =>
      { id := index,
        polygon := (normalizePolygon polygon).map fun p =>
          (⟨clamp p.1 0 width, clamp p.2 0 height⟩ : Pt) }

/-- Adjacency construction of `generateRandomMap`: one empty set per
surviving region, then symmetric insertion along the triangulation's
neighbor lists. -/
noncomputable def genAdjacency (d : DelaunayOracle)
    (regionsOpt : List (Option (Region ℕ))) : AdjMap ℕ :=
  let init := regionsOpt.foldl
    (fun m o =>
      match o with
      | some r => mapSet m r.id []
      | none => m) []
  (List.range regionsOpt.length).foldl
    (fun m index =>
      match regionsOpt.getD index none with
      | none => m
      | some r =>
        (d.neighborList index).foldl
          (fun m2 nb =>
            match regionsOpt.getD nb none with
            | none => m2
            | some rN => addNeighbor (addNeighbor m2 r.id rN.id) rN.id r.id)
          m)
    init

/-- `generateRandomMap(regionCount, width, height)` from `App.jsx`, with the
external Delaunay library (a deterministic function of the sampled points)
and the global random stream passed explicitly. -/
noncomputable def generateRandomMap (delaunayOf : List P2 → DelaunayOracle)
    (regionCount : ℕ) (width height : ℝ) (s : RandStream) :
    List (Region ℕ) × AdjMap ℕ :=
  let points := createPoints regionCount width height s
  let d := delaunayOf points
  let regionsOpt := genRegionsOpt d width height points
  (regionsOpt.reduceOption, genAdjacency d regionsOpt)

theorem genRegionsOpt_id (d : DelaunayOracle) (w h : ℝ) (points : List P2)
    (index : ℕ) (r : Region ℕ)
    (hr : (genRegionsOpt d w h points).getD index none = some r) : r.id = index := by
  unfold genRegionsOpt at hr
  rw [List.getD_eq_getElem?_getD, List.getElem?_map] at hr
  by_cases hidx : index < points.length
  · rw [List.getElem?_range hidx] at hr
    simp only [Option.map_some', Option.getD_some] at hr
    obtain ⟨poly, hpoly, hr2⟩ := Option.map_eq_some'.mp hr
    rw [← hr2]
  · rw [List.getElem?_eq_none (by simpa using le_of_not_lt hidx)] at hr
    simp at hr

/-- Keys and values of the `genAdjacency` initialization fold. -/
theorem genInit_spec :
    ∀ (l : List (Option (Region ℕ))) (m0 : AdjMap ℕ),
      (∀ x s, mapGet m0 x = some s → s = []) →
      (∀ x s, mapGet (l.foldl
        (fun m o =>
          match o with
          | some r => mapSet m r.id []
          | none => m) m0) x = some s → s = []) ∧
      (∀ x, hasKey (l.foldl
        (fun m o =>
          match o with
          | some r => mapSet m r.id []
          | none => m) m0) x ↔
        hasKey m0 x ∨ ∃ r : Region ℕ, some r ∈ l ∧ r.id = x) := by
  intro l
  induction l with
  | nil =>
    intro m0 h0
    refine ⟨h0, fun x => by simp⟩
  | cons o t ih =>
    intro m0 h0
    cases o with
    | none =>
      obtain ⟨ha, hb⟩ := ih m0 h0
      refine ⟨ha, fun x => ?_⟩
      rw [List.foldl_cons]
      show hasKey (t.foldl _ m0) x ↔ _
      rw [hb x]
      simp
    | some r0 =>
      have h0' : ∀ x s, mapGet (mapSet m0 r0.id []) x = some s → s = [] := by
        intro x s hx
        rw [mapGet_mapSet] at hx
        split at hx
        · exact (Option.some_inj.mp hx).symm
        · exact h0 _ _ hx
      obtain ⟨ha, hb⟩ := ih (mapSet m0 r0.id []) h0'
      have hkey : ∀ x, hasKey (mapSet m0 r0.id []) x ↔ x = r0.id ∨ hasKey m0 x := by
        intro x
        unfold hasKey
        rw [mapGet_mapSet]
        by_cases hx : x = r0.id
        · simp [hx]
        · simp [hx]
      refine ⟨ha, fun x => ?_⟩
      rw [List.foldl_cons]
      show hasKey (t.foldl _ (mapSet m0 r0.id [])) x ↔ _
      rw [hb x, hkey x]
      constructor
      · rintro ((h | h) | ⟨r, hr, hrx⟩)
        · exact Or.inr ⟨r0, List.mem_cons_self _ _, h.symm⟩
        · exact Or.inl h
        · exact Or.inr ⟨r, List.mem_cons_of_mem _ hr, hrx⟩
      · rintro (h | ⟨r, hr, hrx⟩)
        · exact Or.inl (Or.inr h)
        · rcases List.mem_cons.mp hr with h2 | h2
          · have : r = r0 := Option.some_inj.mp h2
            subst this
            exact Or.inl (Or.inl hrx.symm)
          · exact Or.inr ⟨r, h2, hrx⟩

theorem genAdjacency_invariant (d : DelaunayOracle)
    (regionsOpt : List (Option (Region ℕ)))
    (hid : ∀ index r, regionsOpt.getD index none = some r → r.id = index)
    (hnb : ∀ i, i ∉ d.neighborList i) :
    symmAdj (genAdjacency d regionsOpt) ∧ irreflAdj (genAdjacency d regionsOpt) := by
  have key : symmAdj (genAdjacency d regionsOpt) ∧ irreflAdj (genAdjacency d regionsOpt) ∧
      ∀ index r, regionsOpt.getD index none = some r →
        hasKey (genAdjacency d regionsOpt) r.id := by
    unfold genAdjacency
    apply foldl_invariant
      (fun m => symmAdj m ∧ irreflAdj m ∧
        ∀ index r, regionsOpt.getD index none = some r → hasKey m r.id)
    · obtain ⟨hval, hkeys⟩ := genInit_spec regionsOpt []
        (by intro x s hh; simp [mapGet] at hh)
      refine ⟨?_, ?_, ?_⟩
      · intro a b ⟨s, hsg, hbs⟩
        rw [hval a s hsg] at hbs
        exact absurd hbs (List.not_mem_nil b)
      · intro a ⟨s, hsg, has⟩
        rw [hval a s hsg] at has
        exact absurd has (List.not_mem_nil a)
      · intro index r hr
        refine (hkeys r.id).mpr (Or.inr ⟨r, ?_, rfl⟩)
        have : regionsOpt[index]? = some (some r) := by
          rw [List.getD_eq_getElem?_getD] at hr
          cases hh : regionsOpt[index]? with
          | none => rw [hh] at hr; exact absurd hr (by simp)
          | some o =>
            rw [hh, Option.getD_some] at hr
            rw [hr]
        exact List.getElem?_mem this
    · intro index m hindex hm
      cases hreg : regionsOpt.getD index none with
      | none =>
        exact hm
      | some r =>
        apply foldl_invariant
          (fun m => symmAdj m ∧ irreflAdj m ∧
            ∀ index2 r2, regionsOpt.getD index2 none = some r2 → hasKey m r2.id)
        · exact hm
        · intro nb m2 hnbmem hm2
          cases hregN : regionsOpt.getD nb none with
          | none => exact hm2
          | some rN =>
            obtain ⟨hsym, hirr, hkeys⟩ := hm2
            have hkA : hasKey m2 r.id := hkeys index r hreg
            have hkB : hasKey m2 rN.id := hkeys nb rN hregN
            have hne : r.id ≠ rN.id := by
              rw [hid index r hreg, hid nb rN hregN]
              intro hcon
              subst hcon
              exact hnb index hnbmem
            refine ⟨?_, ?_, ?_⟩
            · intro a b hab
              rw [memAdj_addPair _ _ _ _ _ hkA hkB] at hab ⊢
              rcases hab with hcase | ⟨h1, h2⟩ | ⟨h1, h2⟩
              · exact Or.inl (hsym a b hcase)
              · exact Or.inr (Or.inr ⟨h2, h1⟩)
              · exact Or.inr (Or.inl ⟨h2, h1⟩)
            · intro a ha
              rw [memAdj_addPair _ _ _ _ _ hkA hkB] at ha
              rcases ha with hcase | ⟨h1, h2⟩ | ⟨h1, h2⟩
              · exact hirr a hcase
              · exact hne (h1 ▸ h2 ▸ rfl)
              · exact hne (h2 ▸ h1 ▸ rfl)
            · intro index2 r2 hr2
              rw [hasKey_addNeighbor, hasKey_addNeighbor]
              exact hkeys index2 r2 hr2
  exact ⟨key.1, key.2.1⟩

/-- C2: the graph of `computeAdjacency` (distinct region ids, as the data
model guarantees) and the graph of `generateRandomMap` (whenever the
triangulation library never lists a site as its own neighbor, as d3-delaunay
does) are symmetric and irreflexive. -/
theorem adjacency_symmetric_irreflexive :
    (∀ (ι : Type) [DecidableEq ι] [Inhabited ι] (regions : List (Region ι)),
      (regions.map Region.id).Nodup →
        symmAdj (computeAdjacency regions) ∧ irreflAdj (computeAdjacency regions)) ∧
    (∀ (delaunayOf : List P2 → DelaunayOracle) (regionCount : ℕ) (width height : ℝ)
        (s : RandStream),
      (∀ pts i, i ∉ (delaunayOf pts).neighborList i) →
        symmAdj (generateRandomMap delaunayOf regionCount width height s).2 ∧
        irreflAdj (generateRandomMap delaunayOf regionCount width height s).2) := by
  constructor
  · intro ι _ _ regions hids
    exact computeAdjacency_invariant regions hids
  · intro delaunayOf regionCount width height s hnb
    exact genAdjacency_invariant _ _
      (genRegionsOpt_id _ width height _) (hnb _)

/-- C2 witness: the empty region list for `computeAdjacency`, and an oracle
with no cells and empty neighbor lists for `generateRandomMap`. -/
theorem adjacency_symmetric_irreflexive_witness :
    (([] : List (Region ℕ)).map Region.id).Nodup ∧
    irreflAdj (computeAdjacency ([] : List (Region ℕ))) ∧
    irreflAdj (generateRandomMap (fun _ => ⟨fun _ => none, fun _ => []⟩)
      0 900 620 (fun _ => 0)).2 := by
  refine ⟨by simp, ?_, ?_⟩
  · exact (adjacency_symmetric_irreflexive.1 ℕ [] (by simp)).2
  · exact (adjacency_symmetric_irreflexive.2 (fun _ => ⟨fun _ => none, fun _ => []⟩)
      0 900 620 (fun _ => 0) (fun _ i => List.not_mem_nil i)).2

/-- A concrete instance of the external Delaunay collaborator whose cell
polygons expose the sampled points (used to observe the generator's
dependence on the global random stream). -/
noncomputable def probeOracle (pts : List P2) : DelaunayOracle :=
  ⟨fun i => some [pts.getD i (0, 0)], fun _ => []⟩

theorem createPoints_allZero :
    createPoints 1 900 620 (fun _ => 0) = [((45 : ℝ), (31 : ℝ))] := by
  have step1 : createPointsLoop 1 900 620 (fun _ => 0) 120 0 [] = ([((45 : ℝ), 31)], 2) := by
    rw [show (120 : ℕ) = 119 + 1 from rfl, createPointsLoop]
    norm_num [randomRange]
    rw [show (119 : ℕ) = 118 + 1 from rfl, createPointsLoop]
    norm_num
  unfold createPoints
  rw [step1]
  dsimp only
  rw [show (1 : ℕ) - ([((45 : ℝ), 31)] : List P2).length = 0 by simp]
  rw [fillPoints]
  simp

theorem createPoints_allHalf :
    createPoints 1 900 620 (fun _ => 1 / 2) = [((450 : ℝ), (310 : ℝ))] := by
  have step1 : createPointsLoop 1 900 620 (fun _ => 1 / 2) 120 0 [] =
      ([((450 : ℝ), 310)], 2) := by
    rw [show (120 : ℕ) = 119 + 1 from rfl, createPointsLoop]
    norm_num [randomRange]
    rw [show (119 : ℕ) = 118 + 1 from rfl, createPointsLoop]
    norm_num
  unfold createPoints
  rw [step1]
  dsimp only
  rw [show (1 : ℕ) - ([((450 : ℝ), 310)] : List P2).length = 0 by simp]
  rw [fillPoints]
  simp

/-- C3 counterexample: `generateRandomMap` takes no seed — its randomness is
the implicit global `Math.random`.  With every declared parameter (region
count, width, height) and the external triangulation fixed, two runs that
read the global generator in different states produce different Region
polygons, so the output is not determined by any seed-plus-parameters. -/
theorem generateRandomMap_global_stream_dependent :
    (generateRandomMap probeOracle 1 900 620 (fun _ => 0)).1 ≠
    (generateRandomMap probeOracle 1 900 620 (fun _ => 1 / 2)).1 := by
  have hg0 : (generateRandomMap probeOracle 1 900 620 (fun _ => 0)).1 =
      [⟨0, [⟨45, 31⟩]⟩] := by
    unfold generateRandomMap
    rw [createPoints_allZero]
    simp only [genRegionsOpt, probeOracle, List.length_cons, List.length_nil,
      List.range_succ, List.range_zero, List.nil_append, List.map_cons,
      List.map_nil, List.getD_cons_zero, Option.map_some']
    rw [show normalizePolygon [((45 : ℝ), (31 : ℝ))] = [((45 : ℝ), (31 : ℝ))] from by
      unfold normalizePolygon
      norm_num]
    have c1 : clamp 45 0 900 = 45 := clamp_of_mem (by norm_num) (by norm_num)
    have c2 : clamp 31 0 620 = 31 := clamp_of_mem (by norm_num) (by norm_num)
    simp [c1, c2, List.reduceOption]
  have hg1 : (generateRandomMap probeOracle 1 900 620 (fun _ => 1 / 2)).1 =
      [⟨0, [⟨450, 310⟩]⟩] := by
    unfold generateRandomMap
    rw [createPoints_allHalf]
    simp only [genRegionsOpt, probeOracle, List.length_cons, List.length_nil,
      List.range_succ, List.range_zero, List.nil_append, List.map_cons,
      List.map_nil, List.getD_cons_zero, Option.map_some']
    rw [show normalizePolygon [((450 : ℝ), (310 : ℝ))] = [((450 : ℝ), (310 : ℝ))] from by
      unfold normalizePolygon
      norm_num]
    have c1 : clamp 450 0 900 = 450 := clamp_of_mem (by norm_num) (by norm_num)
    have c2 : clamp 310 0 620 = 310 := clamp_of_mem (by norm_num) (by norm_num)
    simp [c1, c2, List.reduceOption]
  rw [hg0, hg1]
  intro h
  simp only [List.cons.injEq, Region.mk.injEq, Pt.mk.injEq, and_true] at h
  norm_num at h

/-- C3 amended: `generateRandomMap` has no seed parameter; its randomness is
the implicit global `Math.random` (modelled as an explicit stream).  Relative
to that stream the generator is deterministic: with the same stream, the same
external triangulation, and the same parameters, two runs produce identical
Regions and adjacency. -/
theorem generateRandomMap_deterministic (delaunayOf : List P2 → DelaunayOracle)
    (regionCount : ℕ) (width height : ℝ) (s1 s2 : RandStream)
    (hs : ∀ k, s1 k = s2 k) :
    generateRandomMap delaunayOf regionCount width height s1 =
    generateRandomMap delaunayOf regionCount width height s2 := by
  rw [show s1 = s2 from funext hs]

/-- C3 amended claim, witness at a concrete stream. -/
theorem generateRandomMap_deterministic_witness :
    generateRandomMap probeOracle 1 900 620 (fun _ => 0) =
    generateRandomMap probeOracle 1 900 620 (fun _ => 0) :=
  generateRandomMap_deterministic probeOracle 1 900 620 _ _ (fun _ => rfl)

/-! ### C4: the adjacency builder's actual thresholds -/

/-- A 10 × 10 square. -/
noncomputable def polyA : List Pt := [⟨0, 0⟩, ⟨10, 0⟩, ⟨10, 10⟩, ⟨0, 10⟩]

/-- A 5 × 5 square sharing a 5-unit edge with `polyA`. -/
noncomputable def polyB : List Pt := [⟨10, 0⟩, ⟨15, 0⟩, ⟨15, 5⟩, ⟨10, 5⟩]

/-- Region named `A` over `polyA`. -/
noncomputable def rectA : Region String := ⟨"A", polyA⟩

/-- Region named `B` over `polyB`. -/
noncomputable def rectB : Region String := ⟨"B", polyB⟩

theorem sharedEdgeLength_rects : sharedEdgeLength polyA polyB = 5 := by
  have eA : hypot 10 0 = 10 := hypot_eval (by norm_num) (by norm_num)
  have eB : hypot 0 10 = 10 := hypot_eval (by norm_num) (by norm_num)
  have eC : hypot (-10) 0 = 10 := hypot_eval (by norm_num) (by norm_num)
  have eD : hypot 0 (-10) = 10 := hypot_eval (by norm_num) (by norm_num)
  have eE : hypot 5 0 = 5 := hypot_eval (by norm_num) (by norm_num)
  have eF : hypot 0 5 = 5 := hypot_eval (by norm_num) (by norm_num)
  have eG : hypot (-5) 0 = 5 := hypot_eval (by norm_num) (by norm_num)
  have eH : hypot 0 (-5) = 5 := hypot_eval (by norm_num) (by norm_num)
  have eZ : hypot 0 0 = 0 := hypot_eval (by norm_num) (by norm_num)
  have eJ : hypot 15 0 = 15 := hypot_eval (by norm_num) (by norm_num)
  have eK : (3 : ℝ) < hypot 5 5 := lt_hypot (by norm_num) (by norm_num)
  have eL : (3 : ℝ) < hypot 5 (-5) := lt_hypot (by norm_num) (by norm_num)
  have o00 : segmentOverlapLength ⟨0, 0⟩ ⟨10, 0⟩ ⟨10, 0⟩ ⟨15, 0⟩ = 0 := by
    rw [segmentOverlapLength]
    norm_num [pointLineDistance, eA, eE, eZ]
  have o01 : segmentOverlapLength ⟨0, 0⟩ ⟨10, 0⟩ ⟨15, 0⟩ ⟨15, 5⟩ = 0 := by
    rw [segmentOverlapLength]
    norm_num [pointLineDistance, eA, eF]
  have o02 : segmentOverlapLength ⟨0, 0⟩ ⟨10, 0⟩ ⟨15, 5⟩ ⟨10, 5⟩ = 0 := by
    rw [segmentOverlapLength]
    norm_num [pointLineDistance, eA, eG, eK]
  have o03 : segmentOverlapLength ⟨0, 0⟩ ⟨10, 0⟩ ⟨10, 5⟩ ⟨10, 0⟩ = 0 := by
    rw [segmentOverlapLength]
    norm_num [pointLineDistance, eA, eH]
  have o10 : segmentOverlapLength ⟨10, 0⟩ ⟨10, 10⟩ ⟨10, 0⟩ ⟨15, 0⟩ = 0 := by
    rw [segmentOverlapLength]
    norm_num [pointLineDistance, eB, eE]
  have o11 : segmentOverlapLength ⟨10, 0⟩ ⟨10, 10⟩ ⟨15, 0⟩ ⟨15, 5⟩ = 0 := by
    rw [segmentOverlapLength]
    norm_num [pointLineDistance, eB, eF, eE]
  have o12 : segmentOverlapLength ⟨10, 0⟩ ⟨10, 10⟩ ⟨15, 5⟩ ⟨10, 5⟩ = 0 := by
    rw [segmentOverlapLength]
    norm_num [pointLineDistance, eB, eG]
  have o13 : segmentOverlapLength ⟨10, 0⟩ ⟨10, 10⟩ ⟨10, 5⟩ ⟨10, 0⟩ = 5 := by
    rw [segmentOverlapLength]
    norm_num [pointLineDistance, eB, eH, eZ]
  have o20 : segmentOverlapLength ⟨10, 10⟩ ⟨0, 10⟩ ⟨10, 0⟩ ⟨15, 0⟩ = 0 := by
    rw [segmentOverlapLength]
    norm_num [pointLineDistance, eC, eE, eD]
  have o21 : segmentOverlapLength ⟨10, 10⟩ ⟨0, 10⟩ ⟨15, 0⟩ ⟨15, 5⟩ = 0 := by
    rw [segmentOverlapLength]
    norm_num [pointLineDistance, eC, eF]
  have o22 : segmentOverlapLength ⟨10, 10⟩ ⟨0, 10⟩ ⟨15, 5⟩ ⟨10, 5⟩ = 0 := by
    rw [segmentOverlapLength]
    norm_num [pointLineDistance, eC, eG, eL]
  have o23 : segmentOverlapLength ⟨10, 10⟩ ⟨0, 10⟩ ⟨10, 5⟩ ⟨10, 0⟩ = 0 := by
    rw [segmentOverlapLength]
    norm_num [pointLineDistance, eC, eH]
  have o30 : segmentOverlapLength ⟨0, 10⟩ ⟨0, 0⟩ ⟨10, 0⟩ ⟨15, 0⟩ = 0 := by
    rw [segmentOverlapLength]
    norm_num [pointLineDistance, eD, eE]
  have o31 : segmentOverlapLength ⟨0, 10⟩ ⟨0, 0⟩ ⟨15, 0⟩ ⟨15, 5⟩ = 0 := by
    rw [segmentOverlapLength]
    norm_num [pointLineDistance, eD, eF, eJ]
  have o32 : segmentOverlapLength ⟨0, 10⟩ ⟨0, 0⟩ ⟨15, 5⟩ ⟨10, 5⟩ = 0 := by
    rw [segmentOverlapLength]
    norm_num [pointLineDistance, eD, eG]
  have o33 : segmentOverlapLength ⟨0, 10⟩ ⟨0, 0⟩ ⟨10, 5⟩ ⟨10, 0⟩ = 0 := by
    rw [segmentOverlapLength]
    norm_num [pointLineDistance, eD, eH, eA]
  have hpairs : (List.range polyA.length).flatMap
      (fun i => (List.range polyB.length).map fun j => (i, j)) =
      [(0, 0), (0, 1), (0, 2), (0, 3), (1, 0), (1, 1), (1, 2), (1, 3),
       (2, 0), (2, 1), (2, 2), (2, 3), (3, 0), (3, 1), (3, 2), (3, 3)] := rfl
  have pA0 : polyEdge polyA 0 = (⟨0, 0⟩, ⟨10, 0⟩) := rfl
  have pA1 : polyEdge polyA 1 = (⟨10, 0⟩, ⟨10, 10⟩) := rfl
  have pA2 : polyEdge polyA 2 = (⟨10, 10⟩, ⟨0, 10⟩) := rfl
  have pA3 : polyEdge polyA 3 = (⟨0, 10⟩, ⟨0, 0⟩) := rfl
  have pB0 : polyEdge polyB 0 = (⟨10, 0⟩, ⟨15, 0⟩) := rfl
  have pB1 : polyEdge polyB 1 = (⟨15, 0⟩, ⟨15, 5⟩) := rfl
  have pB2 : polyEdge polyB 2 = (⟨15, 5⟩, ⟨10, 5⟩) := rfl
  have pB3 : polyEdge polyB 3 = (⟨10, 5⟩, ⟨10, 0⟩) := rfl
  unfold sharedEdgeLength
  rw [hpairs]
  simp only [sharedEdgeLengthAux, pA0, pA1, pA2, pA3, pB0, pB1, pB2, pB3,
    o00, o01, o02, o03, o10, o11, o12, o13, o20, o21, o22, o23,
    o30, o31, o32, o33]
  norm_num

/-- C4 counterexample: two squares whose shared boundary has length 5 — well
above the claimed 2-unit threshold — are **not** recorded as adjacent by
`computeAdjacency` (its real threshold is `> 8`); and an edge of length
`3/2 < 2` is not skipped (the real minimum edge length is 1): it contributes
overlap `3/2`. -/
theorem computeAdjacency_thresholds_counterexample :
    sharedEdgeLength rectA.polygon rectB.polygon = 5 ∧
    ¬ memAdj (computeAdjacency [rectA, rectB]) "A" "B" ∧
    segmentOverlapLength ⟨0, 0⟩ ⟨3 / 2, 0⟩ ⟨0, 0⟩ ⟨3 / 2, 0⟩ = 3 / 2 := by
  have hshared : sharedEdgeLength rectA.polygon rectB.polygon = 5 := by
    rw [show rectA.polygon = polyA from rfl, show rectB.polygon = polyB from rfl]
    exact sharedEdgeLength_rects
  refine ⟨hshared, ?_, ?_⟩
  · have hca : computeAdjacency [rectA, rectB] =
        adjStep [rectA, rectB] (initAdj [rectA, rectB]) 0 1 := rfl
    have hinit : initAdj [rectA, rectB] = [("A", []), ("B", [])] := by
      unfold initAdj
      rw [List.foldl_cons, List.foldl_cons, List.foldl_nil]
      rw [show rectA.id = "A" from rfl, show rectB.id = "B" from rfl]
      rw [show mapSet [] ("A" : String) [] = [("A", [])] from rfl]
      unfold mapSet
      rw [if_neg (by decide : ¬ ("A" : String) = "B")]
      rfl
    have hstep : adjStep [rectA, rectB] [("A", []), ("B", [])] 0 1 =
        [("A", []), ("B", [])] := by
      unfold adjStep
      rw [show ([rectA, rectB] : List (Region String)).getD 0 default = rectA from rfl,
        show ([rectA, rectB] : List (Region String)).getD 1 default = rectB from rfl]
      dsimp only
      rw [hshared]
      rw [if_neg (by norm_num : ¬ ((5 : ℝ) > 8))]
    rw [hca, hinit, hstep]
    rintro ⟨s, hsg, hbs⟩
    rw [show mapGet [(("A" : String), ([] : List String)), ("B", [])] "A" = some [] from by
      unfold mapGet
      rw [if_pos rfl]] at hsg
    rw [← Option.some_inj.mp hsg] at hbs
    exact List.not_mem_nil "B" hbs
  · have e1 : hypot (3 / 2) 0 = 3 / 2 := hypot_eval (by norm_num) (by norm_num)
    have eZ : hypot 0 0 = 0 := hypot_eval (by norm_num) (by norm_num)
    rw [segmentOverlapLength]
    norm_num [pointLineDistance, e1, eZ]

/-- C4 amended: in `computeAdjacency` the skipped edges are those shorter
than **1** unit (they contribute overlap 0), and a pair of distinct Regions
is recorded as adjacent exactly when their accumulated shared boundary
length **exceeds 8** units (stated for a two-region list). -/
theorem computeAdjacency_thresholds {ι : Type} [DecidableEq ι] [Inhabited ι]
    (A B : Region ι) (hne : A.id ≠ B.id) :
    (memAdj (computeAdjacency [A, B]) A.id B.id ↔
      sharedEdgeLength A.polygon B.polygon > 8) ∧
    (∀ a1 a2 b1 b2 : Pt,
      hypot (a2.x - a1.x) (a2.y - a1.y) < 1 ∨ hypot (b2.x - b1.x) (b2.y - b1.y) < 1 →
      segmentOverlapLength a1 a2 b1 b2 = 0) := by
  constructor
  · have hca : computeAdjacency [A, B] = adjStep [A, B] (initAdj [A, B]) 0 1 := rfl
    have hinit : initAdj [A, B] = [(A.id, []), (B.id, [])] := by
      unfold initAdj
      rw [List.foldl_cons, List.foldl_cons, List.foldl_nil]
      rw [show mapSet [] A.id [] = [(A.id, [])] from rfl]
      unfold mapSet
      rw [if_neg hne]
      rfl
    have hget0 : ([A, B] : List (Region ι)).getD 0 default = A := rfl
    have hget1 : ([A, B] : List (Region ι)).getD 1 default = B := rfl
    rw [hca, hinit]
    unfold adjStep
    rw [hget0, hget1]
    dsimp only
    by_cases hgt : sharedEdgeLength A.polygon B.polygon > 8
    · rw [if_pos hgt]
      refine ⟨fun _ => hgt, fun _ => ?_⟩
      have h1 : addNeighbor [(A.id, []), (B.id, [])] A.id B.id =
          [(A.id, [B.id]), (B.id, [])] := by
        unfold addNeighbor
        rw [if_pos rfl]
        rw [show setAdd ([] : List ι) B.id = [B.id] from by
          unfold setAdd
          rw [if_neg (List.not_mem_nil B.id)]
          rfl]
      have h2 : addNeighbor [(A.id, [B.id]), (B.id, [])] B.id A.id =
          [(A.id, [B.id]), (B.id, [A.id])] := by
        unfold addNeighbor
        rw [if_neg hne]
        unfold addNeighbor
        rw [if_pos rfl]
        rw [show setAdd ([] : List ι) A.id = [A.id] from by
          unfold setAdd
          rw [if_neg (List.not_mem_nil A.id)]
          rfl]
      rw [h1, h2]
      refine ⟨[B.id], ?_, List.mem_singleton_self B.id⟩
      unfold mapGet
      rw [if_pos rfl]
    · rw [if_neg hgt]
      constructor
      · rintro ⟨s, hsg, hbs⟩
        rw [show mapGet [(A.id, ([] : List ι)), (B.id, [])] A.id = some [] from by
          unfold mapGet
          rw [if_pos rfl]] at hsg
        rw [← Option.some_inj.mp hsg] at hbs
        exact absurd hbs (List.not_mem_nil B.id)
      · intro h
        exact absurd h hgt
  · intro a1 a2 b1 b2 hlt
    rw [segmentOverlapLength]
    exact if_pos hlt

/-- C4 amended claim, witness: the two concrete squares (distinct ids,
shared length 5, not adjacent since `¬ 5 > 8`), and a concrete short edge. -/
theorem computeAdjacency_thresholds_witness :
    ("A" : String) ≠ "B" ∧
    (memAdj (computeAdjacency [rectA, rectB]) rectA.id rectB.id ↔
      sharedEdgeLength rectA.polygon rectB.polygon > 8) := by
  refine ⟨by decide, ?_⟩
  exact (computeAdjacency_thresholds rectA rectB (by decide)).1

/-! ### The par-value estimator `estimateTargetCount` -/

/-- `COLORS.length` (the fixed 4-color palette). -/
def colorsCount : ℕ := 4

/-- Association-list get for JS `Map` values of any type. -/
def alistGet {ι β : Type} [DecidableEq ι] : List (ι × β) → ι → Option β
  | [], _ => none
  | (k, v) :: t, x => if k = x then some v else alistGet t x

/-- Association-list set (replace-or-append), as `Map.set`. -/
def alistSet {ι β : Type} [DecidableEq ι] : List (ι × β) → ι → β → List (ι × β)
  | [], k, v => [(k, v)]
  | (k', v') :: t, k, v => if k' = k then (k, v) :: t else (k', v') :: alistSet t k v

/-- The simultaneous swap `[arr[i], arr[j]] = [arr[j], arr[i]]`. -/
def swapL {α : Type} [Inhabited α] (l : List α) (i j : ℕ) : List α :=
  (l.set i (l.getD j default)).set j (l.getD i default)

/-- The Fisher–Yates loop of `shuffleArray`, counting the index down from
`len - 1` to 1, one `Math.random()` read per step:
`j = Math.floor(Math.random() * (i + 1))`. -/
noncomputable def shuffleGo {α : Type} [Inhabited α] (s : RandStream) :
    ℕ → ℕ → List α → List α
  | _, 0, arr => arr
  | cur, i + 1, arr =>
    let j := (⌊s cur * ((i + 1 : ℕ) + 1 : ℝ)⌋).toNat
    shuffleGo s (cur + 1) i (swapL arr (i + 1) j)

/-- `shuffleArray(array)` with the global stream explicit; consumes exactly
`array.length - 1` stream values starting at `cur`. -/
noncomputable def shuffleArray {α : Type} [Inhabited α] (s : RandStream)
    (cur : ℕ) (arr : List α) : List α :=
  shuffleGo s cur (arr.length - 1) arr

/-- One greedy assignment of the estimator: collect colors used by colored
neighbors, keep the unused palette colors, stable-sort so the target color
becomes the last resort (a 0/1-penalty stable sort is exactly
non-target-first concatenation), pick the first; if nothing is available,
fall back to the target color. -/
def greedyAssign {ι : Type} [DecidableEq ι] (adjacency : AdjMap ι)
    (targetIndex : ℕ) (colors : List (ι × ℕ)) (regionId : ι) : List (ι × ℕ) :=
  let used := ((mapGet adjacency regionId).getD []).filterMap fun nb => alistGet colors nb
  let available := (List.range colorsCount).filter fun idx => decide (idx ∉ used)
  if available = [] then alistSet colors regionId targetIndex
  else
    let sorted := available.filter (fun a => decide (a ≠ targetIndex)) ++
      available.filter (fun a => decide (a = targetIndex))
    alistSet colors regionId (sorted.headD targetIndex)

/-- One estimator iteration: shuffle the region ids (consuming
`ids.length - 1` stream values from `cur`), run the greedy pass in that
order, and count the target-color uses. -/
noncomputable def estimateTrial {ι : Type} [DecidableEq ι] [Inhabited ι]
    (ids : List ι) (adjacency : AdjMap ι) (targetIndex : ℕ)
    (s : RandStream) (cur : ℕ) : ℕ :=
  let order := shuffleArray s cur ids
  let colors := order.foldl (greedyAssign adjacency targetIndex) []
  ((colors.map Prod.snd).filter (fun c => c == targetIndex)).length

/-- The estimator's iteration loop: a `Math.min` fold over the trial counts,
starting from `Infinity` (`none`), the stream cursor advancing by the
`ids.length - 1` values each shuffle consumes. -/
noncomputable def estimateLoop {ι : Type} [DecidableEq ι] [Inhabited ι]
    (ids : List ι) (adjacency : AdjMap ι) (targetIndex : ℕ) (s : RandStream) :
    ℕ → ℕ → Option ℕ → Option ℕ
  | 0, _, best => best
  | n + 1, cur, best =>
    let t := estimateTrial ids adjacency targetIndex s cur
    let best2 :=
      match best with
      | none => some t
      | some v => some (min v t)
    estimateLoop ids adjacency targetIndex s n (cur + (ids.length - 1)) best2

/-- `estimateTargetCount(regions, adjacency, targetIndex, iterations)` from
`App.jsx`, with the global random stream explicit; returns 0 for an empty
region list and when `best` stayed `Infinity` (`Number.isFinite` check). -/
noncomputable def estimateTargetCount {ι : Type} [DecidableEq ι] [Inhabited ι]
    (regions : List (Region ι)) (adjacency : AdjMap ι) (targetIndex : ℕ)
    (iterations : ℕ) (s : RandStream) : ℕ :=
  if regions.length = 0 then 0
  else
    (estimateLoop (regions.map Region.id) adjacency targetIndex s iterations 0 none).getD 0

section EstimatorLemmas

variable {ι : Type} [DecidableEq ι] [Inhabited ι]

theorem swapL_length {α : Type} [Inhabited α] (l : List α) (i j : ℕ) :
    (swapL l i j).length = l.length := by
  simp [swapL]

theorem shuffleGo_length {α : Type} [Inhabited α] (s : RandStream) :
    ∀ (i cur : ℕ) (arr : List α), (shuffleGo s cur i arr).length = arr.length := by
  intro i
  induction i with
  | zero => intro cur arr; rfl
  | succ n ih =>
    intro cur arr
    rw [shuffleGo]
    rw [ih, swapL_length]

theorem shuffleArray_length {α : Type} [Inhabited α] (s : RandStream)
    (cur : ℕ) (arr : List α) : (shuffleArray s cur arr).length = arr.length :=
  shuffleGo_length s _ cur arr

theorem alistSet_length {β : Type} (m : List (ι × β)) (k : ι) (v : β) :
    (alistSet m k v).length ≤ m.length + 1 := by
  induction m with
  | nil => simp [alistSet]
  | cons p t ih =>
    obtain ⟨k', v'⟩ := p
    rw [alistSet]
    split
    · simp
    · simpa using Nat.succ_le_succ ih

theorem greedyAssign_length (adjacency : AdjMap ι) (targetIndex : ℕ)
    (colors : List (ι × ℕ)) (regionId : ι) :
    (greedyAssign adjacency targetIndex colors regionId).length ≤ colors.length + 1 := by
  rw [greedyAssign]
  split
  · exact alistSet_length _ _ _
  · exact alistSet_length _ _ _

theorem greedyFold_length (adjacency : AdjMap ι) (targetIndex : ℕ) :
    ∀ (order : List ι) (colors : List (ι × ℕ)),
      (order.foldl (greedyAssign adjacency targetIndex) colors).length ≤
        colors.length + order.length := by
  intro order
  induction order with
  | nil => intro colors; simp
  | cons x t ih =>
    intro colors
    rw [List.foldl_cons]
    calc (t.foldl (greedyAssign adjacency targetIndex)
          (greedyAssign adjacency targetIndex colors x)).length
        ≤ (greedyAssign adjacency targetIndex colors x).length + t.length := ih _
      _ ≤ (colors.length + 1) + t.length :=
          Nat.add_le_add_right (greedyAssign_length _ _ _ _) _
      _ = colors.length + (x :: t).length := by
          rw [List.length_cons]
          omega

theorem estimateTrial_le (ids : List ι) (adjacency : AdjMap ι)
    (targetIndex : ℕ) (s : RandStream) (cur : ℕ) :
    estimateTrial ids adjacency targetIndex s cur ≤ ids.length := by
  simp only [estimateTrial]
  refine le_trans (List.length_filter_le _ _) ?_
  rw [List.length_map]
  refine le_trans (greedyFold_length adjacency targetIndex _ []) ?_
  simp [shuffleArray_length]

theorem estimateLoop_le (ids : List ι) (adjacency : AdjMap ι)
    (targetIndex : ℕ) (s : RandStream) :
    ∀ (n cur : ℕ) (best : Option ℕ),
      (∀ v, best = some v → v ≤ ids.length) →
      ∀ w, estimateLoop ids adjacency targetIndex s n cur best = some w →
        w ≤ ids.length := by
  intro n
  induction n with
  | zero =>
    intro cur best hb w hw
    exact hb w hw
  | succ k ih =>
    intro cur best hb w hw
    cases best with
    | none =>
      have hw2 : estimateLoop ids adjacency targetIndex s k (cur + (ids.length - 1))
          (some (estimateTrial ids adjacency targetIndex s cur)) = some w := hw
      refine ih _ _ ?_ w hw2
      intro v hv
      rw [← Option.some_inj.mp hv]
      exact estimateTrial_le _ _ _ _ _
    | some v0 =>
      have hw2 : estimateLoop ids adjacency targetIndex s k (cur + (ids.length - 1))
          (some (min v0 (estimateTrial ids adjacency targetIndex s cur))) = some w := hw
      refine ih _ _ ?_ w hw2
      intro v hv
      rw [← Option.some_inj.mp hv]
      exact le_trans (min_le_right _ _) (estimateTrial_le _ _ _ _ _)

/-- Running further iterations from a finite best only decreases it (and the
result stays finite). -/
theorem estimateLoop_mono (ids : List ι) (adjacency : AdjMap ι)
    (targetIndex : ℕ) (s : RandStream) :
    ∀ (k cur : ℕ) (v : ℕ),
      ∃ w, estimateLoop ids adjacency targetIndex s k cur (some v) = some w ∧ w ≤ v := by
  intro k
  induction k with
  | zero =>
    intro cur v
    exact ⟨v, rfl, le_refl v⟩
  | succ n ih =>
    intro cur v
    obtain ⟨w, hw, hle⟩ := ih (cur + (ids.length - 1))
      (min v (estimateTrial ids adjacency targetIndex s cur))
    exact ⟨w, hw, le_trans hle (min_le_left _ _)⟩

/-- Splitting the iteration loop: `a + b` iterations equal `b` iterations
started from the state after `a`. -/
theorem estimateLoop_split (ids : List ι) (adjacency : AdjMap ι)
    (targetIndex : ℕ) (s : RandStream) :
    ∀ (a b cur : ℕ) (best : Option ℕ),
      estimateLoop ids adjacency targetIndex s (a + b) cur best =
        estimateLoop ids adjacency targetIndex s b (cur + a * (ids.length - 1))
          (estimateLoop ids adjacency targetIndex s a cur best) := by
  intro a
  induction a with
  | zero =>
    intro b cur best
    rw [Nat.zero_add, Nat.zero_mul, Nat.add_zero]
    rfl
  | succ n ih =>
    intro b cur best
    have e1 : ∀ (m : ℕ) (b2 : Option ℕ),
        estimateLoop ids adjacency targetIndex s (m + 1) cur b2 =
          estimateLoop ids adjacency targetIndex s m (cur + (ids.length - 1))
            (match b2 with
              | none => some (estimateTrial ids adjacency targetIndex s cur)
              | some v => some (min v (estimateTrial ids adjacency targetIndex s cur))) :=
      fun m b2 => rfl
    rw [show n + 1 + b = (n + b) + 1 from by omega]
    rw [e1 (n + b) best, e1 n best]
    rw [ih]
    rw [show cur + (ids.length - 1) + n * (ids.length - 1) =
      cur + (n + 1) * (ids.length - 1) from by ring]

end EstimatorLemmas

/-- C8 amended: the estimator result always lies between 0 and the region
count; it is 0 on an empty region list; and, for a fixed random stream, it is
non-increasing from any **positive** iteration count to a larger one.  (At 0
iterations the `Infinity` fallback returns 0, which can be smaller than the
minimum over later trials — see the counterexample.) -/
theorem estimateTargetCount_props {ι : Type} [DecidableEq ι] [Inhabited ι]
    (regions : List (Region ι)) (adjacency : AdjMap ι) (targetIndex : ℕ)
    (s : RandStream) :
    (∀ iterations,
      estimateTargetCount regions adjacency targetIndex iterations s ≤ regions.length) ∧
    (∀ iterations,
      estimateTargetCount ([] : List (Region ι)) adjacency targetIndex iterations s = 0) ∧
    (∀ m n, 1 ≤ m → m ≤ n →
      estimateTargetCount regions adjacency targetIndex n s ≤
        estimateTargetCount regions adjacency targetIndex m s) := by
  refine ⟨?_, ?_, ?_⟩
  · intro iterations
    unfold estimateTargetCount
    split
    · simp
    · cases hres : estimateLoop (regions.map Region.id) adjacency targetIndex s
        iterations 0 none with
      | none => simp
      | some w =>
        have hle := estimateLoop_le (regions.map Region.id) adjacency targetIndex s
          iterations 0 none (by intro v hv; simp at hv) w hres
        rw [List.length_map] at hle
        simpa using hle
  · intro iterations
    rfl
  · intro m n hm hmn
    unfold estimateTargetCount
    by_cases hreg : regions.length = 0
    · rw [if_pos hreg, if_pos hreg]
    · rw [if_neg hreg, if_neg hreg]
      obtain ⟨k, rfl⟩ : ∃ k, n = m + k := ⟨n - m, by omega⟩
      obtain ⟨m2, rfl⟩ : ∃ m2, m = m2 + 1 := ⟨m - 1, by omega⟩
      rw [estimateLoop_split (regions.map Region.id) adjacency targetIndex s (m2 + 1) k 0 none]
      obtain ⟨v, hv, -⟩ := estimateLoop_mono (regions.map Region.id) adjacency targetIndex s
        m2 (0 + ((regions.map Region.id).length - 1))
        (estimateTrial (regions.map Region.id) adjacency targetIndex s 0)
      have hfull : estimateLoop (regions.map Region.id) adjacency targetIndex s
          (m2 + 1) 0 none = some v := hv
      rw [hfull]
      obtain ⟨w, hw, hwle⟩ := estimateLoop_mono (regions.map Region.id) adjacency targetIndex s
        k (0 + (m2 + 1) * ((regions.map Region.id).length - 1)) v
      rw [hw]
      simpa using hwle

/-- The global stream in a state where every `Math.random()` output is 0. -/
noncomputable def zeroStream : RandStream := fun _ => 0

/-- Five regions forming the complete graph `K5` (polygons irrelevant). -/
def k5Regions : List (Region ℕ) := [⟨0, []⟩, ⟨1, []⟩, ⟨2, []⟩, ⟨3, []⟩, ⟨4, []⟩]

/-- The complete adjacency on the five regions. -/
def k5Adj : AdjMap ℕ :=
  [(0, [1, 2, 3, 4]), (1, [0, 2, 3, 4]), (2, [0, 1, 3, 4]),
   (3, [0, 1, 2, 4]), (4, [0, 1, 2, 3])]

theorem shuffleGo_zero_step (cur i : ℕ) (arr : List ℕ) :
    shuffleGo zeroStream cur (i + 1) arr =
      shuffleGo zeroStream (cur + 1) i (swapL arr (i + 1) 0) := by
  show shuffleGo zeroStream (cur + 1) i
    (swapL arr (i + 1) ((⌊zeroStream cur * ((i + 1 : ℕ) + 1 : ℝ)⌋).toNat)) = _
  rw [show ((⌊zeroStream cur * ((i + 1 : ℕ) + 1 : ℝ)⌋).toNat) = 0 from by
    simp [zeroStream]]

theorem shuffle_k5 : shuffleArray zeroStream 0 ([0, 1, 2, 3, 4] : List ℕ) =
    [1, 2, 3, 4, 0] := by
  have s1 : swapL ([0, 1, 2, 3, 4] : List ℕ) (3 + 1) 0 = [4, 1, 2, 3, 0] := by decide
  have s2 : swapL ([4, 1, 2, 3, 0] : List ℕ) (2 + 1) 0 = [3, 1, 2, 4, 0] := by decide
  have s3 : swapL ([3, 1, 2, 4, 0] : List ℕ) (1 + 1) 0 = [2, 1, 3, 4, 0] := by decide
  have s4 : swapL ([2, 1, 3, 4, 0] : List ℕ) (0 + 1) 0 = [1, 2, 3, 4, 0] := by decide
  show shuffleGo zeroStream 0 (3 + 1) [0, 1, 2, 3, 4] = [1, 2, 3, 4, 0]
  rw [shuffleGo_zero_step 0 3, s1]
  show shuffleGo zeroStream (0 + 1) (2 + 1) [4, 1, 2, 3, 0] = [1, 2, 3, 4, 0]
  rw [shuffleGo_zero_step (0 + 1) 2, s2]
  show shuffleGo zeroStream (0 + 1 + 1) (1 + 1) [3, 1, 2, 4, 0] = [1, 2, 3, 4, 0]
  rw [shuffleGo_zero_step (0 + 1 + 1) 1, s3]
  show shuffleGo zeroStream (0 + 1 + 1 + 1) (0 + 1) [2, 1, 3, 4, 0] = [1, 2, 3, 4, 0]
  rw [shuffleGo_zero_step (0 + 1 + 1 + 1) 0, s4]
  rfl

theorem estimateTrial_k5 :
    estimateTrial ([0, 1, 2, 3, 4] : List ℕ) k5Adj 0 zeroStream 0 = 2 := by
  show ((((shuffleArray zeroStream 0 [0, 1, 2, 3, 4]).foldl (greedyAssign k5Adj 0)
    []).map Prod.snd).filter (fun c => c == 0)).length = 2
  rw [shuffle_k5]
  decide

/-- C8 counterexample: on the complete graph `K5` with target color 0 and the
all-zero random stream, 0 iterations give 0 but 1 iteration gives 2 (a forced
target use plus the all-colors-used fallback), so the result **increases**
when the iteration count grows from 0 to 1. -/
theorem estimateTargetCount_not_monotone_at_zero :
    estimateTargetCount k5Regions k5Adj 0 0 zeroStream = 0 ∧
    estimateTargetCount k5Regions k5Adj 0 1 zeroStream = 2 ∧
    ¬ (estimateTargetCount k5Regions k5Adj 0 1 zeroStream ≤
        estimateTargetCount k5Regions k5Adj 0 0 zeroStream) := by
  have h0 : estimateTargetCount k5Regions k5Adj 0 0 zeroStream = 0 := rfl
  have h1 : estimateTargetCount k5Regions k5Adj 0 1 zeroStream = 2 := by
    show (estimateLoop ([0, 1, 2, 3, 4] : List ℕ) k5Adj 0 zeroStream (0 + 1) 0 none).getD 0 = 2
    have hloop : estimateLoop ([0, 1, 2, 3, 4] : List ℕ) k5Adj 0 zeroStream (0 + 1) 0 none =
        some 2 := by
      show estimateLoop ([0, 1, 2, 3, 4] : List ℕ) k5Adj 0 zeroStream 0
        (0 + (([0, 1, 2, 3, 4] : List ℕ).length - 1))
        (some (estimateTrial [0, 1, 2, 3, 4] k5Adj 0 zeroStream 0)) = some 2
      rw [estimateTrial_k5]
      rfl
    rw [hloop]
    rfl
  exact ⟨h0, h1, by rw [h0, h1]; omega⟩

/-- C8 amended claim, witness: `K5`, the all-zero stream, iteration counts
1 ≤ 2. -/
theorem estimateTargetCount_props_witness :
    (1 : ℕ) ≤ 1 ∧ (1 : ℕ) ≤ 2 ∧
    estimateTargetCount k5Regions k5Adj 0 2 zeroStream ≤
      estimateTargetCount k5Regions k5Adj 0 1 zeroStream := by
  refine ⟨le_refl 1, by norm_num, ?_⟩
  exact (estimateTargetCount_props k5Regions k5Adj 0 zeroStream).2.2 1 2
    (le_refl 1) (by norm_num)

/-! ### The freehand snap engine -/

/-- `distancePoints(a, b)`. -/
noncomputable def distancePoints (a b : Pt) : ℝ := hypot (a.x - b.x) (a.y - b.y)

/-- `projectPointToSegment(point, start, end)` from `App.jsx`. -/
noncomputable def projectPointToSegment (point a b : Pt) : Pt :=
  let vx := b.x - a.x
  let vy := b.y - a.y
  let lenSq := vx * vx + vy * vy
  if lenSq = 0 then a
  else
    let t := ((point.x - a.x) * vx + (point.y - a.y) * vy) / lenSq
    let clamped := max 0 (min 1 t)
    ⟨a.x + clamped * vx, a.y + clamped * vy⟩

/-- A boundary edge `{start, end}` (the JS field `end` is `stop` here). -/
structure Edge where
  start : Pt
  stop : Pt

/-- `snapPointsToEdges(points, edges, threshold)` from `App.jsx`: each point
is replaced by the projection closest among those strictly within the running
minimum distance (initialized to the threshold); with no edges the path is
returned unchanged. -/
noncomputable def snapPointsToEdges (points : List Pt) (edges : List Edge)
    (threshold : ℝ) : List Pt :=
  if edges = [] then points
  else
    points.map fun point =>
      (edges.foldl
        (fun acc edge =>
          let projection := projectPointToSegment point edge.start edge.stop
          let dist := distancePoints point projection
          if dist < acc.2 then (projection, dist) else acc)
        (point, threshold)).1

theorem snapFold_cases (point : Pt) (edges : List Edge) (threshold : ℝ) :
    (edges.foldl
      (fun acc edge =>
        let projection := projectPointToSegment point edge.start edge.stop
        let dist := distancePoints point projection
        if dist < acc.2 then (projection, dist) else acc)
      (point, threshold)).1 = point ∨
    (distancePoints point (edges.foldl
      (fun acc edge =>
        let projection := projectPointToSegment point edge.start edge.stop
        let dist := distancePoints point projection
        if dist < acc.2 then (projection, dist) else acc)
      (point, threshold)).1 < threshold ∧
    ∃ e ∈ edges, (edges.foldl
      (fun acc edge =>
        let projection := projectPointToSegment point edge.start edge.stop
        let dist := distancePoints point projection
        if dist < acc.2 then (projection, dist) else acc)
      (point, threshold)).1 = projectPointToSegment point e.start e.stop) := by
  have key := foldl_invariant
    (fun acc : Pt × ℝ => (acc.1 = point ∧ acc.2 = threshold) ∨
      (acc.2 < threshold ∧ acc.2 = distancePoints point acc.1 ∧
        ∃ e ∈ edges, acc.1 = projectPointToSegment point e.start e.stop))
    (fun acc edge =>
      let projection := projectPointToSegment point edge.start edge.stop
      let dist := distancePoints point projection
      if dist < acc.2 then (projection, dist) else acc)
    edges (point, threshold) (Or.inl ⟨rfl, rfl⟩)
    (by
      intro e acc2 he hacc2
      dsimp only
      split
      · rename_i hlt
        refine Or.inr ⟨?_, rfl, e, he, rfl⟩
        rcases hacc2 with ⟨-, h2⟩ | ⟨h2, -, -⟩
        · rw [h2] at hlt
          exact hlt
        · exact lt_trans hlt h2
      · exact hacc2)
  rcases key with ⟨h1, -⟩ | ⟨h1, h2, h3⟩
  · exact Or.inl h1
  · exact Or.inr ⟨h2 ▸ h1, h3⟩

/-- C10: `snapPointsToEdges` preserves the path length, and each output point
is either the corresponding input point unchanged or the projection of it
onto one of the edges, strictly within the snap threshold of the input. -/
theorem snapPointsToEdges_spec (points : List Pt) (edges : List Edge)
    (threshold : ℝ) :
    (snapPointsToEdges points edges threshold).length = points.length ∧
    List.Forall₂
      (fun p q => q = p ∨ (distancePoints p q < threshold ∧
        ∃ e ∈ edges, q = projectPointToSegment p e.start e.stop))
      points (snapPointsToEdges points edges threshold) := by
  by_cases hedges : edges = []
  · rw [snapPointsToEdges, if_pos hedges]
    refine ⟨rfl, ?_⟩
    rw [List.forall₂_same]
    intro p hp
    exact Or.inl rfl
  · rw [snapPointsToEdges, if_neg hedges]
    refine ⟨List.length_map _ _, ?_⟩
    rw [List.forall₂_map_right_iff, List.forall₂_same]
    intro p hp
    rcases snapFold_cases p edges threshold with h | ⟨h1, h2⟩
    · exact Or.inl h
    · exact Or.inr ⟨h1, h2⟩

/-- `polygonArea(points)` from `App.jsx`: the shoelace sum over the cyclic
edges, halved. -/
noncomputable def polygonArea (points : List Pt) : ℝ :=
  ((List.range points.length).foldl
    (fun area i =>
      let e := polyEdge points i
      area + (e.1.x * e.2.y - e.2.x * e.1.y)) 0) / 2

/-- The max-deviation scan of `simplifyPath`: index and value of the largest
(strictly increasing) point-to-chord distance over the interior points.  JS
initializes the index to `-1`; it is only read after at least one strict
update (any positive tolerance forces one), so 0 is an equivalent start. -/
noncomputable def maxDeviation (points : List Pt) : ℕ × ℝ :=
  (List.range (points.length - 2)).foldl
    (fun acc k =>
      let i := k + 1
      let d := pointLineDistance (points.getD i default) (points.getD 0 default)
        (points.getD (points.length - 1) default)
      if d > acc.2 then (i, d) else acc)
    (0, 0)

/-- Ramer–Douglas–Peucker recursion of `simplifyPath`.  `fuel` bounds the
recursion depth: every JS-reachable recursive call splits into strictly
shorter slices, so `points.length` levels always suffice. -/
noncomputable def simplifyPathAux : ℕ → List Pt → ℝ → List Pt
  | 0, points, _ => points
  | fuel + 1, points, tolerance =>
    if points.length < 3 then points
    else
      let md := maxDeviation points
      if md.2 > tolerance then
        let left := simplifyPathAux fuel (points.take (md.1 + 1)) tolerance
        let right := simplifyPathAux fuel (points.drop md.1) tolerance
        left.dropLast ++ right
      else [points.getD 0 default, points.getD (points.length - 1) default]

/-- `simplifyPath(points, tolerance)` from `App.jsx`. -/
noncomputable def simplifyPath (points : List Pt) (tolerance : ℝ) : List Pt :=
  simplifyPathAux points.length points tolerance

/-- `fitToMaxPoints(points, targetCount)` from `App.jsx`: stride-resample,
always keeping the final point (JS compares object identity, which for these
freshly-sampled points is index identity). -/
noncomputable def fitToMaxPoints (points : List Pt) (targetCount : ℕ) : List Pt :=
  if points.length ≤ targetCount then points
  else
    let step := (points.length + targetCount - 1) / targetCount
    let idxs := (List.range points.length).filter fun i => i % step == 0
    let result := idxs.filterMap fun i => points.get? i
    if idxs.getLast? == some (points.length - 1) then result
    else result ++ points.getLast?.toList

/-- `closePath(points, threshold)` from `App.jsx`: drop the duplicate closing
point when start and end already nearly coincide, otherwise append the start;
`none` when fewer than 3 points remain. -/
noncomputable def closePath (points : List Pt) (threshold : ℝ) : Option (List Pt) :=
  if points.length < 3 then none
  else
    let start := points.getD 0 default
    let stop := points.getD (points.length - 1) default
    let dist := hypot (start.x - stop.x) (start.y - stop.y)
    let closed := if dist < threshold then points.dropLast else points ++ [start]
    if closed.length < 3 then none else some closed

/-- `buildEdgeGraph(regions, threshold)` from `App.jsx`: all polygon edges
longer than `threshold / 2`, in region and vertex order. -/
noncomputable def buildEdgeGraph {ι : Type} (regions : List (Region ι))
    (threshold : ℝ) : List Edge :=
  regions.foldl
    (fun edges region =>
      edges ++ (List.range region.polygon.length).filterMap fun i =>
        let e := polyEdge region.polygon i
        if distancePoints e.1 e.2 > threshold / 2 then some ⟨e.1, e.2⟩ else none)
    []

/-- `findNearestNode(nodes, point, threshold)` from `App.jsx`: the **last**
node (in insertion order) within the threshold, if any. -/
noncomputable def findNearestNode (nodes : List (ℕ × Pt)) (point : Pt)
    (threshold : ℝ) : Option (ℕ × Pt) :=
  nodes.foldl
    (fun result node =>
      if distancePoints node.2 point < threshold then some node else result)
    none

/-- The `connect(a, b)` closure of `buildGraphFromEdges`: ensure both rows
exist, then set the symmetric edge weight to the Euclidean distance. -/
noncomputable def connectNodes (graph : List (ℕ × List (ℕ × ℝ)))
    (a b : ℕ × Pt) : List (ℕ × List (ℕ × ℝ)) :=
  let g1 := if (alistGet graph a.1).isSome then graph else alistSet graph a.1 []
  let g2 := if (alistGet g1 b.1).isSome then g1 else alistSet g1 b.1 []
  let length := distancePoints a.2 b.2
  let g3 := alistSet g2 a.1 (alistSet ((alistGet g2 a.1).getD []) b.1 length)
  alistSet g3 b.1 (alistSet ((alistGet g3 b.1).getD []) a.1 length)

/-- `buildGraphFromEdges(edges, startPoint, endPoint, threshold)` from
`App.jsx`.  JS node ids are `node-${nodes.size}-${random}`; the size counter
(the injective part) is the id here.  The `getNode` closure dedups nodes
within the threshold via `findNearestNode`. -/
noncomputable def buildGraphFromEdges (edges : List Edge)
    (startPoint endPoint : Pt) (threshold : ℝ) :
    List (ℕ × List (ℕ × ℝ)) × List (ℕ × Pt) :=
  let getNode := fun (nodes : List (ℕ × Pt)) (point : Pt) =>
    match findNearestNode nodes point threshold with
    | some n => (n, nodes)
    | none => ((nodes.length, point), nodes ++ [(nodes.length, point)])
  let st := edges.foldl
    (fun (st : List (ℕ × List (ℕ × ℝ)) × List (ℕ × Pt)) edge =>
      let a := getNode st.2 edge.start
      let b := getNode a.2 edge.stop
      (connectNodes st.1 a.1 b.1, b.2))
    ([], [])
  let sn := getNode st.2 startPoint
  let en := getNode sn.2 endPoint
  let startNode := sn.1
  let endNode := en.1
  let nodes := en.2
  let nearestStart := findNearestNode nodes startPoint threshold
  let nearestEnd := findNearestNode nodes endPoint threshold
  let g1 :=
    match nearestStart with
    | some ns => if ns.1 ≠ startNode.1 then connectNodes st.1 startNode ns else st.1
    | none => st.1
  let g2 :=
    match nearestEnd with
    | some ne => if ne.1 ≠ endNode.1 then connectNodes g1 endNode ne else g1
    | none => g1
  (g2, nodes)

/-- The linear minimum scan of `shortestPath`: the unvisited node of least
finite tentative distance (`none` plays `Infinity`, and `Infinity < Infinity`
is false). -/
noncomputable def selectMinNode (unvisited : List ℕ)
    (distances : List (ℕ × Option ℝ)) : Option ℕ :=
  (unvisited.foldl
    (fun (acc : Option ℕ × Option ℝ) nodeId =>
      let dist := (alistGet distances nodeId).getD none
      match dist, acc.2 with
      | some x, none => (some nodeId, some x)
      | some x, some m => if x < m then (some nodeId, some x) else acc
      | none, _ => acc)
    (none, none)).1

/-- Dijkstra's main loop from `shortestPath` (fuel = one visit per node). -/
noncomputable def dijkstraLoop (graph : List (ℕ × List (ℕ × ℝ))) (endId : ℕ) :
    ℕ → List ℕ → List (ℕ × Option ℝ) → List (ℕ × ℕ) →
      List (ℕ × Option ℝ) × List (ℕ × ℕ)
  | 0, _, distances, previous => (distances, previous)
  | fuel + 1, unvisited, distances, previous =>
    if unvisited = [] then (distances, previous)
    else
      match selectMinNode unvisited distances with
      | none => (distances, previous)
      | some current =>
        let unvisited2 := unvisited.erase current
        if current = endId then (distances, previous)
        else
          let neighbors := (alistGet graph current).getD []
          let st := neighbors.foldl
            (fun (st : List (ℕ × Option ℝ) × List (ℕ × ℕ)) nb =>
              if nb.1 ∈ unvisited2 then
                let alt := ((alistGet distances current).getD none).map (· + nb.2)
                let curDist := (alistGet st.1 nb.1).getD none
                match alt, curDist with
                | some x, none => (alistSet st.1 nb.1 (some x), alistSet st.2 nb.1 current)
                | some x, some y =>
                  if x < y then (alistSet st.1 nb.1 (some x), alistSet st.2 nb.1 current)
                  else st
                | none, _ => st
              else st)
            (distances, previous)
          dijkstraLoop graph endId fuel unvisited2 st.1 st.2

/-- Path reconstruction of `shortestPath`, walking `previous` from the end
node (fuel-bounded; `previous` is acyclic on JS-terminating runs). -/
noncomputable def buildPath (previous : List (ℕ × ℕ)) (startId : ℕ) :
    ℕ → ℕ → List ℕ → Option (List ℕ)
  | 0, _, _ => none
  | fuel + 1, current, path =>
    if current = startId then some path
    else
      match alistGet previous current with
      | none => none
      | some nxt => buildPath previous startId fuel nxt (path ++ [nxt])

/-- `shortestPath(graph, startId, endId)` from `App.jsx`: Dijkstra with a
linear minimum scan; returns the node path from `endId` back to `startId`,
or `none`. -/
noncomputable def shortestPath (graph : List (ℕ × List (ℕ × ℝ)))
    (startId endId : ℕ) : Option (List ℕ) :=
  if alistGet graph startId = none ∨ alistGet graph endId = none then none
  else
    let keys := graph.map Prod.fst
    let distances0 := graph.map fun p =>
      (p.1, if p.1 = startId then some (0 : ℝ) else (none : Option ℝ))
    let res := dijkstraLoop graph endId keys.length keys distances0 []
    if alistGet res.2 endId = none ∧ ¬ startId = endId then none
    else buildPath res.2 startId (res.2.length + 1) endId [endId]

/-- `mergePolyline(line, path)` from `App.jsx`. -/
def mergePolyline (line : List Pt) (path : List Pt) : List Pt :=
  line ++ path.drop 1

/-- `buildSnappedPolygon(points, regions, threshold)` from `App.jsx`:
snap onto boundary edges, try to stitch start to end along existing
boundaries via Dijkstra, else close the loop directly; `none` carries the
no-valid-closure message. -/
noncomputable def buildSnappedPolygon {ι : Type} (points : List Pt)
    (regions : List (Region ι)) (threshold : ℝ) : Option (List Pt) :=
  let edges := buildEdgeGraph regions threshold
  let snappedPoints := snapPointsToEdges points edges threshold
  let start := snappedPoints.getD 0 default
  let stop := snappedPoints.getD (snappedPoints.length - 1) default
  let gn := buildGraphFromEdges edges start stop threshold
  let startNode := findNearestNode gn.2 start threshold
  let endNode := findNearestNode gn.2 stop threshold
  let path :=
    match startNode, endNode with
    | some sn, some en => shortestPath gn.1 sn.1 en.1
    | _, _ => none
  match path with
  | some p =>
    if p.length > 1 then
      let pathPoints := (p.map fun nodeId => (alistGet gn.2 nodeId).getD default).reverse
      some (mergePolyline snappedPoints pathPoints)
    else closePath snappedPoints 20
  | none => closePath snappedPoints 20

/-- The structured outcome of finishing a freehand stroke
(`handlePointerUp`): the two rejection paths that keep the drawn stroke from
becoming a Region, the no-closure rejection, or the preview polygon. -/
inductive StrokeOutcome where
  | tooFewPoints
  | noValidClosure
  | regionTooSmall
  | preview (polygon : List Pt)

/-- The stroke-finishing pipeline of `handlePointerUp` in `App.jsx`:
fewer than 3 points → silent rejection (`tooFewPoints`); simplify (tolerance
3), cap at 18 vertices, snap within `MAP_WIDTH * 0.012`; no closable polygon
→ `noValidClosure`; absolute shoelace area below 350 → `regionTooSmall`;
otherwise the preview polygon (the Region is created only from a preview). -/
noncomputable def processStroke {ι : Type} (points : List Pt)
    (customRegions : List (Region ι)) : StrokeOutcome :=
  if points.length < 3 then StrokeOutcome.tooFewPoints
  else
    let simplified := simplifyPath points 3
    let fitted := fitToMaxPoints simplified 18
    let snapThreshold := 900 * 0.012
    match buildSnappedPolygon fitted customRegions snapThreshold with
    | none => StrokeOutcome.noValidClosure
    | some polygon =>
      if |polygonArea polygon| < 350 then StrokeOutcome.regionTooSmall
      else StrokeOutcome.preview polygon

/-- C9: a stroke of fewer than 3 points is rejected on the distinct
`tooFewPoints` path, and a stroke whose snapped closed polygon has absolute
shoelace area below 350 is rejected on the distinct `regionTooSmall` path;
neither rejection produces a preview polygon, so no Region is created. -/
theorem processStroke_rejections {ι : Type} (points : List Pt)
    (customRegions : List (Region ι)) :
    (points.length < 3 →
      processStroke points customRegions = StrokeOutcome.tooFewPoints) ∧
    (∀ polygon, ¬ points.length < 3 →
      buildSnappedPolygon (fitToMaxPoints (simplifyPath points 3) 18) customRegions
        (900 * 0.012) = some polygon →
      |polygonArea polygon| < 350 →
      processStroke points customRegions = StrokeOutcome.regionTooSmall) := by
  constructor
  · intro h
    unfold processStroke
    rw [if_pos h]
  · intro polygon hlen hbuild harea
    unfold processStroke
    rw [if_neg hlen]
    dsimp only
    rw [hbuild]
    dsimp only
    rw [if_pos harea]

theorem simplifyPathAux_small :
    ∀ (fuel : ℕ) (pts : List Pt) (tol : ℝ), pts.length < 3 →
      simplifyPathAux fuel pts tol = pts := by
  intro fuel
  cases fuel with
  | zero => intro pts tol _; rfl
  | succ n =>
    intro pts tol h
    rw [simplifyPathAux]
    rw [if_pos h]

theorem stroke_maxDeviation :
    maxDeviation [⟨0, 0⟩, ⟨20, 0⟩, ⟨20, 20⟩] = (1, hypot 10 (-10)) := by
  have hdist : pointLineDistance ⟨20, 0⟩ ⟨0, 0⟩ ⟨20, 20⟩ = hypot 10 (-10) := by
    rw [pointLineDistance]
    norm_num
  have h3 : (3 : ℝ) < hypot 10 (-10) := lt_hypot (by norm_num) (by norm_num)
  unfold maxDeviation
  rw [show List.range (([⟨0, 0⟩, ⟨20, 0⟩, ⟨20, 20⟩] : List Pt).length - 2) = [0] from rfl]
  rw [List.foldl_cons, List.foldl_nil]
  dsimp only
  rw [show ([⟨0, 0⟩, ⟨20, 0⟩, ⟨20, 20⟩] : List Pt).getD (0 + 1) default = ⟨20, 0⟩ from rfl]
  rw [show ([⟨0, 0⟩, ⟨20, 0⟩, ⟨20, 20⟩] : List Pt).getD 0 default = ⟨0, 0⟩ from rfl]
  rw [show ([⟨0, 0⟩, ⟨20, 0⟩, ⟨20, 20⟩] : List Pt).getD
    (([⟨0, 0⟩, ⟨20, 0⟩, ⟨20, 20⟩] : List Pt).length - 1) default = ⟨20, 20⟩ from rfl]
  rw [hdist]
  rw [if_pos (show hypot 10 (-10) > (0 : ℝ) from lt_trans (by norm_num) h3)]

theorem stroke_simplify :
    simplifyPath [⟨0, 0⟩, ⟨20, 0⟩, ⟨20, 20⟩] 3 = [⟨0, 0⟩, ⟨20, 0⟩, ⟨20, 20⟩] := by
  have h3 : (3 : ℝ) < hypot 10 (-10) := lt_hypot (by norm_num) (by norm_num)
  show simplifyPathAux (2 + 1) [⟨0, 0⟩, ⟨20, 0⟩, ⟨20, 20⟩] 3 = _
  rw [simplifyPathAux]
  rw [if_neg (by norm_num : ¬ ([⟨0, 0⟩, ⟨20, 0⟩, ⟨20, 20⟩] : List Pt).length < 3)]
  dsimp only
  rw [stroke_maxDeviation]
  dsimp only
  rw [if_pos (show hypot 10 (-10) > (3 : ℝ) from h3)]
  rw [show ([⟨0, 0⟩, ⟨20, 0⟩, ⟨20, 20⟩] : List Pt).take (1 + 1) = [⟨0, 0⟩, ⟨20, 0⟩] from rfl]
  rw [show ([⟨0, 0⟩, ⟨20, 0⟩, ⟨20, 20⟩] : List Pt).drop 1 = [⟨20, 0⟩, ⟨20, 20⟩] from rfl]
  rw [simplifyPathAux_small 2 [⟨0, 0⟩, ⟨20, 0⟩] 3 (by norm_num),
    simplifyPathAux_small 2 [⟨20, 0⟩, ⟨20, 20⟩] 3 (by norm_num)]
  rfl

theorem snapPointsToEdges_nil (points : List Pt) (threshold : ℝ) :
    snapPointsToEdges points [] threshold = points := by
  unfold snapPointsToEdges
  rw [if_pos rfl]

theorem stroke_nearest_start :
    findNearestNode [(0, ⟨0, 0⟩), (1, ⟨20, 20⟩)] ⟨0, 0⟩ (900 * 0.012) =
      some (0, ⟨0, 0⟩) := by
  have fb : distancePoints ⟨0, 0⟩ ⟨0, 0⟩ < 900 * 0.012 := by
    rw [distancePoints, hypot_eval (le_refl 0) (by norm_num)]
    norm_num
  have fd : ¬ distancePoints ⟨20, 20⟩ ⟨0, 0⟩ < 900 * 0.012 := by
    rw [distancePoints]
    exact not_lt.mpr (le_hypot (by norm_num) (by norm_num))
  unfold findNearestNode
  rw [List.foldl_cons, List.foldl_cons, List.foldl_nil]
  dsimp only
  rw [if_pos fb, if_neg fd]

theorem stroke_nearest_end :
    findNearestNode [(0, ⟨0, 0⟩), (1, ⟨20, 20⟩)] ⟨20, 20⟩ (900 * 0.012) =
      some (1, ⟨20, 20⟩) := by
  have fa : ¬ distancePoints ⟨0, 0⟩ ⟨20, 20⟩ < 900 * 0.012 := by
    rw [distancePoints]
    exact not_lt.mpr (le_hypot (by norm_num) (by norm_num))
  have fc : distancePoints ⟨20, 20⟩ ⟨20, 20⟩ < 900 * 0.012 := by
    rw [distancePoints, hypot_eval (le_refl 0) (by norm_num)]
    norm_num
  unfold findNearestNode
  rw [List.foldl_cons, List.foldl_cons, List.foldl_nil]
  dsimp only
  rw [if_neg fa, if_pos fc]

theorem stroke_graph :
    buildGraphFromEdges [] ⟨0, 0⟩ ⟨20, 20⟩ (900 * 0.012) =
      ([], [(0, ⟨0, 0⟩), (1, ⟨20, 20⟩)]) := by
  have fa : ¬ distancePoints ⟨0, 0⟩ ⟨20, 20⟩ < 900 * 0.012 := by
    rw [distancePoints]
    exact not_lt.mpr (le_hypot (by norm_num) (by norm_num))
  have fb : distancePoints ⟨0, 0⟩ ⟨0, 0⟩ < 900 * 0.012 := by
    rw [distancePoints, hypot_eval (le_refl 0) (by norm_num)]
    norm_num
  have fc : distancePoints ⟨20, 20⟩ ⟨20, 20⟩ < 900 * 0.012 := by
    rw [distancePoints, hypot_eval (le_refl 0) (by norm_num)]
    norm_num
  have fd : ¬ distancePoints ⟨20, 20⟩ ⟨0, 0⟩ < 900 * 0.012 := by
    rw [distancePoints]
    exact not_lt.mpr (le_hypot (by norm_num) (by norm_num))
  have fn2 : findNearestNode [(0, ⟨0, 0⟩)] ⟨20, 20⟩ (900 * 0.012) = none := by
    unfold findNearestNode
    rw [List.foldl_cons, List.foldl_nil]
    dsimp only
    rw [if_neg fa]
  unfold buildGraphFromEdges
  dsimp only
  rw [List.foldl_nil]
  dsimp only
  rw [show findNearestNode [] ⟨0, 0⟩ (900 * 0.012) = none from rfl]
  dsimp only
  simp only [List.length_nil, List.nil_append]
  rw [fn2]
  dsimp only
  simp only [List.length_cons, List.length_nil, Nat.zero_add, List.cons_append,
    List.nil_append]
  rw [stroke_nearest_start, stroke_nearest_end]
  dsimp only
  rw [if_neg (show ¬ (0 : ℕ) ≠ 0 from fun h => h rfl)]
  rw [if_neg (show ¬ (1 : ℕ) ≠ 1 from fun h => h rfl)]

theorem stroke_close :
    closePath [⟨0, 0⟩, ⟨20, 0⟩, ⟨20, 20⟩] 20 =
      some [⟨0, 0⟩, ⟨20, 0⟩, ⟨20, 20⟩, ⟨0, 0⟩] := by
  unfold closePath
  rw [if_neg (by norm_num : ¬ ([⟨0, 0⟩, ⟨20, 0⟩, ⟨20, 20⟩] : List Pt).length < 3)]
  dsimp only
  rw [show ([⟨0, 0⟩, ⟨20, 0⟩, ⟨20, 20⟩] : List Pt).getD 0 default = ⟨0, 0⟩ from rfl]
  rw [show ([⟨0, 0⟩, ⟨20, 0⟩, ⟨20, 20⟩] : List Pt).getD
    (([⟨0, 0⟩, ⟨20, 0⟩, ⟨20, 20⟩] : List Pt).length - 1) default = ⟨20, 20⟩ from rfl]
  dsimp only
  rw [if_neg (show ¬ hypot ((0 : ℝ) - 20) ((0 : ℝ) - 20) < 20 from
    not_lt.mpr (le_hypot (by norm_num) (by norm_num)))]
  have hlen4 : ¬ (([⟨0, 0⟩, ⟨20, 0⟩, ⟨20, 20⟩] : List Pt) ++ ([⟨0, 0⟩] : List Pt)).length < 3 := by
    norm_num
  rw [if_neg hlen4]
  rfl

theorem stroke_build :
    buildSnappedPolygon [⟨0, 0⟩, ⟨20, 0⟩, ⟨20, 20⟩] ([] : List (Region ℕ))
      (900 * 0.012) = some [⟨0, 0⟩, ⟨20, 0⟩, ⟨20, 20⟩, ⟨0, 0⟩] := by
  unfold buildSnappedPolygon
  dsimp only
  rw [show buildEdgeGraph ([] : List (Region ℕ)) (900 * 0.012) = [] from rfl]
  rw [snapPointsToEdges_nil]
  rw [show ([⟨0, 0⟩, ⟨20, 0⟩, ⟨20, 20⟩] : List Pt).getD 0 default = ⟨0, 0⟩ from rfl]
  rw [show ([⟨0, 0⟩, ⟨20, 0⟩, ⟨20, 20⟩] : List Pt).getD
    (([⟨0, 0⟩, ⟨20, 0⟩, ⟨20, 20⟩] : List Pt).length - 1) default = ⟨20, 20⟩ from rfl]
  rw [stroke_graph]
  dsimp only
  rw [stroke_nearest_start, stroke_nearest_end]
  dsimp only
  rw [show shortestPath [] 0 1 = none from by
    unfold shortestPath
    rw [if_pos (show alistGet ([] : List (ℕ × List (ℕ × ℝ))) 0 = none ∨
      alistGet ([] : List (ℕ × List (ℕ × ℝ))) 1 = none from Or.inl rfl)]]
  exact stroke_close

theorem stroke_area :
    polygonArea [⟨0, 0⟩, ⟨20, 0⟩, ⟨20, 20⟩, ⟨0, 0⟩] = 200 := by
  unfold polygonArea
  rw [show List.range (([⟨0, 0⟩, ⟨20, 0⟩, ⟨20, 20⟩, ⟨0, 0⟩] : List Pt).length) =
    [0, 1, 2, 3] from rfl]
  rw [List.foldl_cons, List.foldl_cons, List.foldl_cons, List.foldl_cons,
    List.foldl_nil]
  rw [show polyEdge [⟨0, 0⟩, ⟨20, 0⟩, ⟨20, 20⟩, ⟨0, 0⟩] 0 = (⟨0, 0⟩, ⟨20, 0⟩) from rfl]
  rw [show polyEdge [⟨0, 0⟩, ⟨20, 0⟩, ⟨20, 20⟩, ⟨0, 0⟩] 1 = (⟨20, 0⟩, ⟨20, 20⟩) from rfl]
  rw [show polyEdge [⟨0, 0⟩, ⟨20, 0⟩, ⟨20, 20⟩, ⟨0, 0⟩] 2 = (⟨20, 20⟩, ⟨0, 0⟩) from rfl]
  rw [show polyEdge [⟨0, 0⟩, ⟨20, 0⟩, ⟨20, 20⟩, ⟨0, 0⟩] 3 = (⟨0, 0⟩, ⟨0, 0⟩) from rfl]
  dsimp only
  norm_num

/-- C9 witness: a 2-point stroke is rejected as `tooFewPoints`; the 3-point
right-angle stroke `(0,0) → (20,0) → (20,20)` over an empty region list
closes into a triangle of area 200 < 350 and is rejected as
`regionTooSmall`. -/
theorem processStroke_rejections_witness :
    ([⟨0, 0⟩, ⟨20, 0⟩] : List Pt).length < 3 ∧
    processStroke ([⟨0, 0⟩, ⟨20, 0⟩] : List Pt) ([] : List (Region ℕ)) =
      StrokeOutcome.tooFewPoints ∧
    ¬ ([⟨0, 0⟩, ⟨20, 0⟩, ⟨20, 20⟩] : List Pt).length < 3 ∧
    |polygonArea [⟨0, 0⟩, ⟨20, 0⟩, ⟨20, 20⟩, ⟨0, 0⟩]| < 350 ∧
    processStroke ([⟨0, 0⟩, ⟨20, 0⟩, ⟨20, 20⟩] : List Pt) ([] : List (Region ℕ)) =
      StrokeOutcome.regionTooSmall := by
  have harea : |polygonArea [⟨0, 0⟩, ⟨20, 0⟩, ⟨20, 20⟩, ⟨0, 0⟩]| < 350 := by
    rw [stroke_area]
    norm_num
  have hbuild : buildSnappedPolygon
      (fitToMaxPoints (simplifyPath [⟨0, 0⟩, ⟨20, 0⟩, ⟨20, 20⟩] 3) 18)
      ([] : List (Region ℕ)) (900 * 0.012) =
      some [⟨0, 0⟩, ⟨20, 0⟩, ⟨20, 20⟩, ⟨0, 0⟩] := by
    rw [stroke_simplify]
    rw [show fitToMaxPoints [⟨0, 0⟩, ⟨20, 0⟩, ⟨20, 20⟩] 18 =
      [⟨0, 0⟩, ⟨20, 0⟩, ⟨20, 20⟩] from by
      unfold fitToMaxPoints
      rw [if_pos (by norm_num)]]
    exact stroke_build
  refine ⟨by norm_num, ?_, by norm_num, harea, ?_⟩
  · exact (processStroke_rejections [⟨0, 0⟩, ⟨20, 0⟩] ([] : List (Region ℕ))).1
      (by norm_num)
  · exact (processStroke_rejections [⟨0, 0⟩, ⟨20, 0⟩, ⟨20, 20⟩]
      ([] : List (Region ℕ))).2 [⟨0, 0⟩, ⟨20, 0⟩, ⟨20, 20⟩, ⟨0, 0⟩]
      (by norm_num) hbuild harea

end FourColorMap

